import Mathlib

/-!
# CardSense data-extraction reconciliation engine: a shallow embedding

This file embeds, in Lean 4, the reconciliation core of the CardSense
credit-card-statement parser (`src/app/api/chat/route.ts`): the Validator
(`isValidData`), the fallback record (`createCompleteFallbackData`), the
Reconciliation Engine (`robustDataMerging`), the Derivation Engine
(`finalValidationAndCalculation`), the JSON recovery step
(`extractJsonFromResponse`), the pipeline (`extract10DataPointsWithGemini`)
and the customer-name pattern extractor (the name half of
`extractCustomerInfoFromText`).

Modelling conventions:
* JavaScript runtime values are the inductive `JSVal`.  JS numbers are exact
  rationals `ℚ` plus an explicit `vNaN` constructor; the source runs on IEEE
  float64, so arithmetic here is the exact-rational idealisation of the same
  expressions (all quantities in this code are currency/point amounts far from
  float pathologies).
* A JS object field that may be absent is `Option JSVal`: `none` is key
  absence, `some v` key presence.  Reads of an absent key give `vUndefined`.
* The source file is an ES module, hence strict mode: assigning a property on
  a primitive value throws a `TypeError`.  `robustDataMerging` can hit that
  assignment (`mergedData.reward_points_summary[field] = ...` when the merged
  `reward_points_summary` is a truthy primitive), so the embedded merge
  returns `Option JSRecord`, `none` being the thrown `TypeError`.
* `robustDataMerging` spreads `aiData`, so non-canonical keys of the LLM
  object survive the merge; `finalValidationAndCalculation` then drops them
  (it iterates only over the canonical keys).  No canonical output ever
  depends on a non-canonical key, so the embedding tracks the canonical
  eleven keys only.
-/

/-- A JavaScript runtime value, as used by the extraction pipeline.  Numbers
are exact rationals with NaN split out; objects are ordered key/value lists
(JS objects preserve insertion order and have unique keys).  `vArrP` is an
array that has received own named (non-index) property assignments — in this
program that happens only when a reward sub-value is written onto an array
`reward_points_summary`; it is still an array (`Array.isArray` is true, its
`length` counts only the element slots) but its named properties are
readable. -/
inductive JSVal : Type where
  | vNull : JSVal
  | vUndefined : JSVal
  | vNaN : JSVal
  | vNum : ℚ → JSVal
  | vStr : String → JSVal
  | vBool : Bool → JSVal
  | vArr : List JSVal → JSVal
  | vObj : List (String × JSVal) → JSVal
  | vArrP : List JSVal → List (String × JSVal) → JSVal

namespace JSVal

/-- JavaScript truthiness: `false`, `0`, `NaN`, `""`, `null`, `undefined`
are falsy; every object and array (even empty ones) is truthy. -/
def jsTruthy : JSVal → Bool
  | vNull => false
  | vUndefined => false
  | vNaN => false
  | vNum q => decide (q ≠ 0)
  | vStr s => decide (s ≠ "")
  | vBool b => b
  | vArr _ => true
  | vObj _ => true
  | vArrP _ _ => true

/-- The placeholder strings `isValidData` rejects (compared lowercased). -/
def invalidStrings : List String := ["null", "na", "n/a", "", "undefined"]

/-- ASCII lowercase of one character. -/
def lowerCh (c : Char) : Char :=
  if 65 ≤ c.toNat && c.toNat ≤ 90 then Char.ofNat (c.toNat + 32) else c

/-- `value.toLowerCase()` on the ASCII fragment this pipeline sees. -/
def strLower (s : String) : String := String.mk (s.data.map lowerCh)

/-- Embeds `isValidData` (the Validator).  Order of source checks:
null/undefined, NaN number, the explicit `value === 0` early-true, empty
array, empty keyed object, placeholder string; everything else is valid.
A non-empty array passes the `Object.keys(value).length === 0` check (its
indices are keys), numbers and booleans skip every typeof-guarded check.
The `Array.isArray(value) && value.length === 0` check precedes the
`Object.keys` check and `length` counts only element slots, so an empty
array is invalid even when named properties are attached (`vArrP [] props`),
while a non-empty one is valid. -/
def isValidData : JSVal → Bool
  | vNull => false
  | vUndefined => false
  | vNaN => false
  | vNum _ => true
  | vArr xs => !xs.isEmpty
  | vObj fs => !fs.isEmpty
  | vStr s => !(invalidStrings.contains (strLower s))
  | vBool _ => true
  | vArrP xs _ => !xs.isEmpty

/-- `typeof v === "object"` (true for objects, arrays and `null`). -/
def jsTypeofObject : JSVal → Bool
  | vNull => true
  | vArr _ => true
  | vObj _ => true
  | vArrP _ _ => true
  | _ => false

/-- First-match association lookup, the JS own-property read. -/
def lookupField : List (String × JSVal) → String → Option JSVal
  | [], _ => none
  | (k, v) :: rest, key => if k = key then some v else lookupField rest key

/-- Property read `v[key]` for the named keys this code reads
(`opening_balance`, `earned`, `closing_balance`).  On objects it is the
own-property lookup; on every other value it is `undefined` (the embedded
code never reads a property of `null`/`undefined`, which would throw: every
such read in the source sits behind a truthiness guard). -/
def jsGetProp (v : JSVal) (key : String) : JSVal :=
  match v with
  | vObj fs => (lookupField fs key).getD vUndefined
  | vArrP _ props => (lookupField props key).getD vUndefined
  | _ => vUndefined

/-- Update-or-append for object fields (JS assignment keeps the position of
an existing key and overwrites its value, otherwise appends). -/
def updFields : List (String × JSVal) → String → JSVal → List (String × JSVal)
  | [], k, v => [(k, v)]
  | (k0, v0) :: rest, k, v =>
      if k0 = k then (k0, v) :: rest else (k0, v0) :: updFields rest k v

/-- Property write `v[key] = x` in strict mode.  On an object it updates or
appends the key; on an array it attaches (or updates) the named own property
while the value stays an array — `Array.isArray` remains true and `length`
still counts only the element slots, so an empty array stays length 0 even
after the write; on a primitive it throws `TypeError` (`none`). -/
def jsSetProp (v : JSVal) (key : String) (x : JSVal) : Option JSVal :=
  match v with
  | vObj fs => some (vObj (updFields fs key x))
  | vArr xs => some (vArrP xs [(key, x)])
  | vArrP xs props => some (vArrP xs (updFields props key x))
  | _ => none

/-! ### Numeric coercion (JS `ToNumber` / `ToString`), for the arithmetic and
comparisons the source performs on dynamically-typed values. -/

/-- ASCII whitespace, the relevant fragment of the JS `\s` class /
`ToNumber` trimming (the statement texts this pipeline sees are ASCII). -/
def isWs (c : Char) : Bool :=
  c = ' ' || c = Char.ofNat 9 || c = Char.ofNat 10 || c = Char.ofNat 13 ||
  c = Char.ofNat 12 || c = Char.ofNat 11

/-- `c` is a decimal digit. -/
def isDigitCh (c : Char) : Bool := 48 ≤ c.toNat && c.toNat ≤ 57

/-- Numeric value of a digit list (most significant first), with its length. -/
def digitsVal : List Char → Nat → Nat
  | [], acc => acc
  | c :: rest, acc => digitsVal rest (acc * 10 + (c.toNat - 48))

/-- JS `ToNumber` on a string (`none` is NaN): trim whitespace, `""` is `0`,
otherwise an optional sign and a decimal literal `d*.d*` (at least one digit)
with an optional exponent.  The hex/`Infinity` literal forms of full JS are
not modelled; this pipeline never produces them. -/
def strToNumber (s : String) : Option ℚ :=
  let cs := (s.data.dropWhile isWs).reverse.dropWhile isWs |>.reverse
  match cs with
  | [] => some 0
  | _ =>
    let (sgn, cs) : ℚ × List Char :=
      match cs with
      | '-' :: rest => (-1, rest)
      | '+' :: rest => (1, rest)
      | _ => (1, cs)
    let intPart := cs.takeWhile isDigitCh
    let cs := cs.dropWhile isDigitCh
    let (fracPart, cs) : List Char × List Char :=
      match cs with
      | '.' :: rest => (rest.takeWhile isDigitCh, rest.dropWhile isDigitCh)
      | _ => ([], cs)
    if intPart.isEmpty && fracPart.isEmpty then none
    else
      let mantissa : ℚ := (digitsVal intPart 0 : ℚ) +
        (digitsVal fracPart 0 : ℚ) / ((10 : ℚ) ^ fracPart.length)
      match cs with
      | [] => some (sgn * mantissa)
      | e :: rest =>
        if e = 'e' || e = 'E' then
          let (esgn, rest) : Bool × List Char :=
            match rest with
            | '-' :: r => (true, r)
            | '+' :: r => (false, r)
            | _ => (false, rest)
          if rest.isEmpty || !(rest.all isDigitCh) then none
          else
            let ex := digitsVal rest 0
            some (sgn * mantissa * (if esgn then ((10 : ℚ) ^ ex)⁻¹ else (10 : ℚ) ^ ex))
        else none

/-- JS `ToNumber` (`none` is NaN).  Arrays coerce through their string form:
`[]` and single-element arrays of `null`/`undefined` give `0`, a one-element
array coerces like its element's string form, longer arrays (their join
contains a comma) and plain objects give NaN. -/
def jsToNumber : JSVal → Option ℚ
  | vNull => some 0
  | vUndefined => none
  | vNaN => none
  | vNum q => some q
  | vBool b => some (if b then 1 else 0)
  | vStr s => strToNumber s
  | vArr [] => some 0
  | vArr [vNull] => some 0
  | vArr [vUndefined] => some 0
  | vArr [v] => jsToNumber v
  | vArr _ => none
  | vObj _ => none
  | vArrP [] _ => some 0
  | vArrP [vNull] _ => some 0
  | vArrP [vUndefined] _ => some 0
  | vArrP [v] _ => jsToNumber v
  | vArrP _ _ => none

/-- Decimal rendering of a rational whose decimal expansion terminates (every
JS float does); the `num/den` fallback is unreachable from float-valued
sources and only keeps the function total. -/
def ratToDecString (q : ℚ) : String :=
  if q.den = 1 then toString q.num
  else
    match (List.range 30).find? (fun k => (q * (10 : ℚ) ^ (k + 1)).den = 1) with
    | some k =>
        let scaled := (q * (10 : ℚ) ^ (k + 1)).num
        let sgn := if scaled < 0 then "-" else ""
        let digits := toString scaled.natAbs
        let digits := if digits.length ≤ k + 1 then
            String.mk (List.replicate (k + 2 - digits.length) '0') ++ digits
          else digits
        let point := digits.length - (k + 1)
        sgn ++ (digits.take point) ++ "." ++ (digits.drop point)
    | none => toString q.num ++ "/" ++ toString q.den

mutual
/-- JS `ToString`, needed for the string branch of `+`. -/
def jsToString : JSVal → String
  | vNull => "null"
  | vUndefined => "undefined"
  | vNaN => "NaN"
  | vBool b => if b then "true" else "false"
  | vNum q => ratToDecString q
  | vStr s => s
  | vArr xs => arrJoin xs
  | vObj _ => "[object Object]"
  | vArrP xs _ => arrJoin xs

/-- Array `toString`: elements joined with commas, `null`/`undefined`
elements rendered empty. -/
def arrJoin : List JSVal → String
  | [] => ""
  | [v] => elemStr v
  | v :: rest => elemStr v ++ "," ++ arrJoin rest

/-- One array element in `Array.prototype.toString`. -/
def elemStr : JSVal → String
  | vNull => ""
  | vUndefined => ""
  | v => jsToString v
end

/-- JS `ToPrimitive` with default hint: objects and arrays become their
string forms, primitives are unchanged. -/
def jsToPrimitive : JSVal → JSVal
  | vArr xs => vStr (arrJoin xs)
  | vObj _ => vStr "[object Object]"
  | vArrP xs _ => vStr (arrJoin xs)
  | v => v

/-- JS `+`: after `ToPrimitive`, a string operand forces concatenation,
otherwise numeric addition with NaN propagation. -/
def jsAdd (a b : JSVal) : JSVal :=
  match jsToPrimitive a, jsToPrimitive b with
  | vStr s, pb => vStr (s ++ jsToString pb)
  | pa, vStr t => vStr (jsToString pa ++ t)
  | pa, pb =>
    match jsToNumber pa, jsToNumber pb with
    | some x, some y => vNum (x + y)
    | _, _ => vNaN

/-- JS `-`: numeric subtraction after `ToNumber`, NaN-propagating. -/
def jsSub (a b : JSVal) : JSVal :=
  match jsToNumber a, jsToNumber b with
  | some x, some y => vNum (x - y)
  | _, _ => vNaN

/-- `Math.round(total * 0.05 * 100) / 100`, the minimum-due derivation.
`Math.round` is floor of `x + 1/2` (round half toward +infinity);
`t * 0.05 * 100` is the exact `5 * t` in the rational idealisation. -/
def jsMinDue (total : JSVal) : JSVal :=
  match jsToNumber total with
  | some t => vNum ((⌊t * 5 + 1 / 2⌋ : ℚ) / 100)
  | none => vNaN

/-! ### The `?.length || 0` comparison used for transactions. -/

/-- `v?.length`: `undefined` through optional chaining on `null`/`undefined`;
character count of a string; element count of an array; the `length` own
property of an object (absent on the record objects this code builds);
`undefined` on remaining primitives. -/
def jsOptLength : JSVal → JSVal
  | vNull => vUndefined
  | vUndefined => vUndefined
  | vStr s => vNum s.length
  | vArr xs => vNum xs.length
  | vObj fs => (lookupField fs "length").getD vUndefined
  | vArrP xs _ => vNum xs.length
  | _ => vUndefined

/-- `x || 0`. -/
def jsOrZero (v : JSVal) : JSVal := if jsTruthy v then v else vNum 0

/-- `n > v` with a number on the left: `ToNumber` the right side, `false`
when it is NaN. -/
def jsGtQ (n : ℚ) (v : JSVal) : Bool :=
  match jsToNumber v with
  | some q => decide (q < n)
  | none => false

end JSVal

open JSVal

/-- The canonical eleven keys of a statement record, each `Option` because a
merge input (LLM JSON or pattern output) may omit keys.  `none` is key
absence; a present-but-`undefined` key behaves identically everywhere this
code reads it (`in` is only ever conjoined with `isValidData`). -/
@[ext] structure JSRecord : Type where
  customer_name : Option JSVal
  statement_date : Option JSVal
  payment_due_date : Option JSVal
  total_amount_due : Option JSVal
  minimum_amount_due : Option JSVal
  credit_limit : Option JSVal
  available_credit_limit : Option JSVal
  card_number : Option JSVal
  transactions : Option JSVal
  reward_points_summary : Option JSVal
  bank_name : Option JSVal

/-- The three sub-keys of `reward_points_summary`, in source order. -/
def obKey : String := "opening_balance"

/-- Second reward sub-key. -/
def eKey : String := "earned"

/-- Third reward sub-key. -/
def cbKey : String := "closing_balance"

/-- The `reward_points_summary` value of `createCompleteFallbackData`. -/
def fallbackRps : JSVal :=
  vObj [(obKey, vNull), (eKey, vNull), (cbKey, vNull)]

/-- Embeds `createCompleteFallbackData`: every key present, `null` for
unknown scalars, an empty list for `transactions`, a three-null object for
`reward_points_summary`. -/
def createCompleteFallbackData : JSRecord where
  customer_name := some vNull
  statement_date := some vNull
  payment_due_date := some vNull
  total_amount_due := some vNull
  minimum_amount_due := some vNull
  credit_limit := some vNull
  available_credit_limit := some vNull
  card_number := some vNull
  transactions := some (vArr [])
  reward_points_summary := some fallbackRps
  bank_name := some vNull

/-! ### `robustDataMerging`

The source loops mutate disjoint fields of `mergedData = { ...aiData }`, so
the merge is written one field at a time; the loops' guard structure is
preserved verbatim per field. -/

/-- One high-priority field (`customer_name`, `card_number`, `bank_name`):
`if (patternData[field] && isValidData(patternData[field]))` assigns the
pattern value unconditionally. -/
def hpField (cur pv : Option JSVal) : Option JSVal :=
  let v := pv.getD vUndefined
  if jsTruthy v && isValidData v then some v else cur

/-- The `transactions` case of the high-priority loop: the pattern list is
assigned only when it is truthy, valid, an array, and
`patternData[field].length > (mergedData[field]?.length || 0)`.  (`vArrP`
arises only from a named-property write, which this code performs only on
`reward_points_summary`, so the `Array.isArray` test here sees bare
arrays.) -/
def txField (cur pv : Option JSVal) : Option JSVal :=
  let v := pv.getD vUndefined
  if jsTruthy v && isValidData v then
    match v with
    | vArr ps =>
        if jsGtQ (ps.length : ℚ) (jsOrZero (jsOptLength (cur.getD vUndefined)))
        then some v else cur
    | _ => cur
  else cur

/-- One financial or date field: the pattern value is assigned only when it
is truthy and valid and `!mergedData[field] || !isValidData(mergedData[field])`
(the merged value is falsy or invalid). -/
def fillField (cur pv : Option JSVal) : Option JSVal :=
  let v := pv.getD vUndefined
  if jsTruthy v && isValidData v then
    let c := cur.getD vUndefined
    if !jsTruthy c || !isValidData c then some v else cur
  else cur

/-- One reward sub-field of the merge.  `cur` is the merged
`reward_points_summary` so far, `prps` the (truthy) pattern one.  The guard
`!mergedData.rps || !mergedData.rps[field] || !isValidData(...)` reads the
sub-property only behind the truthiness of the container; a falsy container
is replaced by `{}` before the write; writing onto a truthy primitive throws
(`none`). -/
def mergeRpsSub (cur : Option JSVal) (prps : JSVal) (key : String) :
    Option (Option JSVal) :=
  let pv := jsGetProp prps key
  if jsTruthy pv && isValidData pv then
    let c := cur.getD vUndefined
    if !jsTruthy c || !jsTruthy (jsGetProp c key) || !isValidData (jsGetProp c key) then
      let base := if jsTruthy c then c else vObj []
      (jsSetProp base key pv).map some
    else some cur
  else some cur

/-- The reward-points loop of `robustDataMerging`: skipped entirely unless
`patternData.reward_points_summary` is truthy, then the three sub-keys in
source order. -/
def mergeRps (arps prps : Option JSVal) : Option (Option JSVal) :=
  let p := prps.getD vUndefined
  if jsTruthy p then do
    let c1 ← mergeRpsSub arps p obKey
    let c2 ← mergeRpsSub c1 p eKey
    mergeRpsSub c2 p cbKey
  else some arps

/-- Embeds `robustDataMerging(aiData, patternData)`.  `none` is the strict-
mode `TypeError` thrown when a reward sub-value is assigned onto a truthy
primitive `reward_points_summary`. -/
def robustDataMerging (aiData patternData : JSRecord) : Option JSRecord :=
  (mergeRps aiData.reward_points_summary patternData.reward_points_summary).map
    fun rps =>
      { customer_name := hpField aiData.customer_name patternData.customer_name
        card_number := hpField aiData.card_number patternData.card_number
        bank_name := hpField aiData.bank_name patternData.bank_name
        transactions := txField aiData.transactions patternData.transactions
        total_amount_due := fillField aiData.total_amount_due patternData.total_amount_due
        minimum_amount_due := fillField aiData.minimum_amount_due patternData.minimum_amount_due
        credit_limit := fillField aiData.credit_limit patternData.credit_limit
        available_credit_limit :=
          fillField aiData.available_credit_limit patternData.available_credit_limit
        statement_date := fillField aiData.statement_date patternData.statement_date
        payment_due_date := fillField aiData.payment_due_date patternData.payment_due_date
        reward_points_summary := rps }

/-! ### `finalValidationAndCalculation` -/

/-- One step of the re-validation loop: keep the candidate when the key is
present and valid, otherwise the fallback default. -/
def keepValid (o : Option JSVal) (d : JSVal) : JSVal :=
  match o with
  | some v => if isValidData v then v else d
  | none => d

/-- `data[field].k ?? null`: `null`/`undefined` map to `null`, everything
else (NaN, placeholder strings, ...) passes through un-revalidated. -/
def coalesceSub (v : JSVal) (k : String) : JSVal :=
  match jsGetProp v k with
  | vNull => vNull
  | vUndefined => vNull
  | x => x

/-- The `reward_points_summary` case of the re-validation loop: a present,
valid value of object type is rebuilt with the three sub-keys null-coalesced;
a present, valid non-object value is kept as-is (the generic branch); an
absent or invalid value leaves the fallback three-null object. -/
def validateRps (o : Option JSVal) : JSVal :=
  match o with
  | some v =>
      if isValidData v then
        if jsTypeofObject v then
          vObj [(obKey, coalesceSub v obKey), (eKey, coalesceSub v eKey),
                (cbKey, coalesceSub v cbKey)]
        else v
      else fallbackRps
  | none => fallbackRps

/-- The reward-closing derivation: when opening and earned are valid and
closing is not, write their `+` into the object (the write cannot throw here
because the guard forces an object container; `getD` keeps the function
total). -/
def deriveClosing (rps : JSVal) : JSVal :=
  if isValidData (jsGetProp rps obKey) && isValidData (jsGetProp rps eKey) &&
      !isValidData (jsGetProp rps cbKey) then
    (jsSetProp rps cbKey (jsAdd (jsGetProp rps obKey) (jsGetProp rps eKey))).getD rps
  else rps

/-- Embeds `finalValidationAndCalculation(data)`: re-validate every canonical
field onto a fresh fallback record, then the three derivations in source
order — available credit, reward closing balance, minimum due. -/
def finalValidationAndCalculation (data : JSRecord) : JSRecord :=
  let cn := keepValid data.customer_name vNull
  let sd := keepValid data.statement_date vNull
  let pdd := keepValid data.payment_due_date vNull
  let tot := keepValid data.total_amount_due vNull
  let mn0 := keepValid data.minimum_amount_due vNull
  let cl := keepValid data.credit_limit vNull
  let av0 := keepValid data.available_credit_limit vNull
  let card := keepValid data.card_number vNull
  let tx := keepValid data.transactions (vArr [])
  let rps0 := validateRps data.reward_points_summary
  let bn := keepValid data.bank_name vNull
  let av := if isValidData cl && isValidData tot && !isValidData av0
            then jsSub cl tot else av0
  let rps := deriveClosing rps0
  let mn := if isValidData tot && !isValidData mn0 then jsMinDue tot else mn0
  { customer_name := some cn
    statement_date := some sd
    payment_due_date := some pdd
    total_amount_due := some tot
    minimum_amount_due := some mn
    credit_limit := some cl
    available_credit_limit := some av
    card_number := some card
    transactions := some tx
    reward_points_summary := some rps
    bank_name := some bn }

/-- The catch-branch of `extract10DataPointsWithGemini`: copy each present,
valid pattern field onto a fresh fallback record (both branches of the
source's reward special-case perform the same wholesale assignment). -/
def catchCopy (patternData : JSRecord) : JSRecord where
  customer_name := some (keepValid patternData.customer_name vNull)
  statement_date := some (keepValid patternData.statement_date vNull)
  payment_due_date := some (keepValid patternData.payment_due_date vNull)
  total_amount_due := some (keepValid patternData.total_amount_due vNull)
  minimum_amount_due := some (keepValid patternData.minimum_amount_due vNull)
  credit_limit := some (keepValid patternData.credit_limit vNull)
  available_credit_limit := some (keepValid patternData.available_credit_limit vNull)
  card_number := some (keepValid patternData.card_number vNull)
  transactions := some (keepValid patternData.transactions (vArr []))
  reward_points_summary := some (keepValid patternData.reward_points_summary fallbackRps)
  bank_name := some (keepValid patternData.bank_name vNull)

/-! ## Shared concrete records and basic lemmas -/

/-- A record with every key absent (e.g. an LLM JSON object `\x7b\x7d`). -/
def noKeys : JSRecord :=
  ⟨none, none, none, none, none, none, none, none, none, none, none⟩

/-- Unfolds a successful merge into its per-field form. -/
theorem robustDataMerging_eq_some {ai p m : JSRecord}
    (h : robustDataMerging ai p = some m) :
    ∃ rps, mergeRps ai.reward_points_summary p.reward_points_summary = some rps ∧
      m = { customer_name := hpField ai.customer_name p.customer_name
            card_number := hpField ai.card_number p.card_number
            bank_name := hpField ai.bank_name p.bank_name
            transactions := txField ai.transactions p.transactions
            total_amount_due := fillField ai.total_amount_due p.total_amount_due
            minimum_amount_due := fillField ai.minimum_amount_due p.minimum_amount_due
            credit_limit := fillField ai.credit_limit p.credit_limit
            available_credit_limit :=
              fillField ai.available_credit_limit p.available_credit_limit
            statement_date := fillField ai.statement_date p.statement_date
            payment_due_date := fillField ai.payment_due_date p.payment_due_date
            reward_points_summary := rps } := by
  rcases Option.map_eq_some'.mp h with ⟨rps, hrps, hm⟩
  exact ⟨rps, hrps, hm.symm⟩

/-! ## C7: the Validator truth table -/

/-- C7: `isValidData` returns false for null and undefined, false for NaN,
true for every number including 0, false for the empty list, false for the
empty keyed object, false exactly for the case-insensitive placeholder
strings "null"/"na"/"n/a"/""/"undefined", and true for every other value
(booleans, non-empty lists, non-empty objects, other strings). -/
theorem isValidData_spec :
    isValidData vNull = false ∧ isValidData vUndefined = false ∧
    isValidData vNaN = false ∧ isValidData (vNum 0) = true ∧
    (∀ q : ℚ, isValidData (vNum q) = true) ∧
    isValidData (vArr []) = false ∧ isValidData (vObj []) = false ∧
    (∀ s, invalidStrings.contains (strLower s) = true → isValidData (vStr s) = false) ∧
    (∀ s, invalidStrings.contains (strLower s) = false → isValidData (vStr s) = true) ∧
    (∀ b, isValidData (vBool b) = true) ∧
    (∀ x xs, isValidData (vArr (x :: xs)) = true) ∧
    (∀ kv fs, isValidData (vObj (kv :: fs)) = true) := by
  refine ⟨rfl, rfl, rfl, rfl, fun q => rfl, rfl, rfl, ?_, ?_,
    fun b => rfl, fun x xs => rfl, fun kv fs => rfl⟩ <;>
  · intro s h
    show (!(invalidStrings.contains (strLower s))) = _
    rw [h]
    rfl

/-- Witness: the string clauses of `isValidData_spec` at concrete inputs. -/
theorem isValidData_spec_witness :
    isValidData (vStr "hello") = true ∧ isValidData (vStr "N/A") = false :=
  ⟨isValidData_spec.2.2.2.2.2.2.2.2.1 "hello" rfl,
   isValidData_spec.2.2.2.2.2.2.2.1 "N/A" rfl⟩

/-! ## C1: merge rule for financial-amount and date fields -/

/-- C1 counterexample: the LLM's `total_amount_due = 0` is present and usable
(`isValidData 0` is true), yet merge replaces it with the pattern value 500 —
the merge guard `!mergedData[field]` tests truthiness, not usability. -/
theorem merge_overwrites_llm_zero :
    isValidData (vNum 0) = true ∧
    (robustDataMerging { noKeys with total_amount_due := some (vNum 0) }
        { noKeys with total_amount_due := some (vNum 500) }).map
      (fun m => m.total_amount_due) = some (some (vNum 500)) ∧
    (some (vNum 500) : Option JSVal) ≠ some (vNum 0) := by
  refine ⟨rfl, rfl, fun h => ?_⟩
  have h' := JSVal.vNum.inj (Option.some.inj h)
  norm_num at h'

/-- The merge rule actually implemented for a financial or date field:
the llm value is kept when it is truthy and usable; the pattern value is
assigned exactly when it is truthy and usable while the llm value is falsy
or unusable; an untruthy-or-unusable pattern value changes nothing.  (A
usable llm value of `0` is falsy, hence overwritten.) -/
def llmFirstTruthy (av pv mv : Option JSVal) : Prop :=
  (jsTruthy (av.getD vUndefined) = true ∧ isValidData (av.getD vUndefined) = true →
    mv = av) ∧
  (jsTruthy (pv.getD vUndefined) = true ∧ isValidData (pv.getD vUndefined) = true ∧
    (jsTruthy (av.getD vUndefined) = false ∨ isValidData (av.getD vUndefined) = false) →
    mv = pv) ∧
  (¬ (jsTruthy (pv.getD vUndefined) = true ∧ isValidData (pv.getD vUndefined) = true) →
    mv = av)

/-- `fillField` satisfies the merge rule. -/
theorem fillField_spec (cur pv : Option JSVal) : llmFirstTruthy cur pv (fillField cur pv) := by
  refine ⟨?_, ?_, ?_⟩
  · rintro ⟨hct, hcv⟩
    by_cases hp : jsTruthy (pv.getD vUndefined) && isValidData (pv.getD vUndefined)
    · simp [fillField, hp, hct, hcv]
    · simp [fillField, hp]
  · rintro ⟨hpt, hpv, hc⟩
    rcases pv with _ | x
    · simp [jsTruthy] at hpt
    · simp only [Option.getD_some] at hpt hpv
      rcases hc with hc | hc <;> simp [fillField, hpt, hpv, hc]
  · intro hnp
    rw [not_and_or] at hnp
    rcases hnp with h | h <;> rw [Bool.not_eq_true] at h <;> simp [fillField, h]

/-- C1 (amended): for every merge that does not throw, each of the four
financial-amount fields and the two date fields of the merged record obeys
`llmFirstTruthy`: the llm value is kept when truthy and usable, the pattern
value fills in exactly when it is truthy and usable while the llm value is
falsy or unusable.  (The claim's "including the numeric value 0" fails: a
usable llm 0 is falsy and is overwritten.) -/
theorem merge_financial_date_rule (ai p m : JSRecord)
    (h : robustDataMerging ai p = some m) :
    llmFirstTruthy ai.total_amount_due p.total_amount_due m.total_amount_due ∧
    llmFirstTruthy ai.minimum_amount_due p.minimum_amount_due m.minimum_amount_due ∧
    llmFirstTruthy ai.credit_limit p.credit_limit m.credit_limit ∧
    llmFirstTruthy ai.available_credit_limit p.available_credit_limit
      m.available_credit_limit ∧
    llmFirstTruthy ai.statement_date p.statement_date m.statement_date ∧
    llmFirstTruthy ai.payment_due_date p.payment_due_date m.payment_due_date := by
  obtain ⟨rps, -, hm⟩ := robustDataMerging_eq_some h
  subst hm
  exact ⟨fillField_spec _ _, fillField_spec _ _, fillField_spec _ _,
    fillField_spec _ _, fillField_spec _ _, fillField_spec _ _⟩

/-- Witness for `merge_financial_date_rule` at a concrete pair: llm total 0
(usable, falsy), pattern total 500; the merged record is the pattern one. -/
theorem merge_financial_date_rule_witness :
    llmFirstTruthy (some (vNum 0)) (some (vNum 500)) (some (vNum 500)) :=
  (merge_financial_date_rule { noKeys with total_amount_due := some (vNum 0) }
    { noKeys with total_amount_due := some (vNum 500) }
    { noKeys with total_amount_due := some (vNum 500) } rfl).1

/-! ## C5: merge rule for `transactions` -/

/-- C5 counterexample: the llm `transactions` is the string "abcdef" — "not
a list", which the claim says counts as length 0 — and the pattern list has
one row, yet the pattern list does not replace it: JS computes
`"abcdef".length = 6` and `1 > 6` fails. -/
theorem merge_transactions_string_length :
    (robustDataMerging { noKeys with transactions := some (vStr "abcdef") }
        { noKeys with transactions := some (vArr [vNum 1]) }).map
      (fun m => m.transactions) = some (some (vStr "abcdef")) ∧
    (some (vStr "abcdef") : Option JSVal) ≠ some (vArr [vNum 1]) := by
  refine ⟨rfl, fun h => ?_⟩
  cases Option.some.inj h

/-- The transactions merge rule actually implemented: a non-empty pattern
list replaces the llm value exactly when its length exceeds
`llmValue?.length || 0` under JS numeric comparison (absent, null and
length-less llm values count 0, a string counts its character length, an
object its own `length` property); in every other case — including any
non-list pattern value — the llm value is kept. -/
def txMergeRule (av pv mv : Option JSVal) : Prop :=
  (∀ ps, pv = some (vArr ps) → ps ≠ [] →
    (jsGtQ (ps.length : ℚ) (jsOrZero (jsOptLength (av.getD vUndefined))) = true →
      mv = pv) ∧
    (jsGtQ (ps.length : ℚ) (jsOrZero (jsOptLength (av.getD vUndefined))) = false →
      mv = av)) ∧
  ((∀ ps, pv ≠ some (vArr ps)) → mv = av) ∧
  (pv = some (vArr []) → mv = av)

/-- `txField` satisfies the transactions merge rule. -/
theorem txField_spec (cur pv : Option JSVal) : txMergeRule cur pv (txField cur pv) := by
  refine ⟨?_, ?_, ?_⟩
  · rintro ps rfl hne
    have hval : isValidData (vArr ps) = true := by
      cases ps with
      | nil => exact absurd rfl hne
      | cons x xs => rfl
    constructor <;> intro hgt <;>
      simp [txField, jsTruthy, hval, hgt]
  · intro hnp
    rcases pv with _ | x
    · simp [txField, jsTruthy]
    · rcases x with _ | _ | _ | q | s | b | xs | fs | ⟨xs, props⟩ <;>
        first
          | exact absurd rfl (hnp _)
          | simp [txField, jsTruthy, isValidData]
  · rintro rfl
    simp [txField, isValidData]

/-- C5 (amended): for every merge that does not throw, the merged
`transactions` field obeys `txMergeRule`. -/
theorem merge_transactions_rule (ai p m : JSRecord)
    (h : robustDataMerging ai p = some m) :
    txMergeRule ai.transactions p.transactions m.transactions := by
  obtain ⟨rps, -, hm⟩ := robustDataMerging_eq_some h
  subst hm
  exact txField_spec _ _

/-- Witness for `merge_transactions_rule`: the pattern's one-row list
replaces an absent llm transactions field (length 1 > 0). -/
theorem merge_transactions_rule_witness :
    (txMergeRule none (some (vArr [vNum 1]))
      (some (vArr [vNum 1]))) ∧ (vArr [vNum 1] ≠ vArr []) := by
  refine ⟨merge_transactions_rule noKeys
    { noKeys with transactions := some (vArr [vNum 1]) }
    { noKeys with transactions := some (vArr [vNum 1]) } rfl, fun h => ?_⟩
  cases (JSVal.vArr.inj h)

/-! ## C10: a pattern value of numeric 0 is never assigned by merge -/

/-- `updFields` preserves lookups at other keys. -/
theorem lookup_updFields_ne (fs : List (String × JSVal)) (k k' : String)
    (v : JSVal) (hne : k ≠ k') :
    lookupField (updFields fs k v) k' = lookupField fs k' := by
  induction fs with
  | nil => simp [updFields, lookupField, hne]
  | cons a rest ih =>
    rw [updFields]
    by_cases ha : a.1 = k
    · rw [if_pos ha]
      show lookupField ((a.1, v) :: rest) k' = lookupField (a :: rest) k'
      rw [lookupField, lookupField, if_neg (ha ▸ hne), if_neg (ha ▸ hne)]
    · rw [if_neg ha]
      show lookupField ((a.1, a.2) :: _) k' = lookupField (a :: rest) k'
      rw [lookupField, lookupField]
      by_cases hak : a.1 = k'
      · rw [if_pos hak, if_pos hak]
      · rw [if_neg hak, if_neg hak, ih]

/-- A successful property write leaves reads of a different key unchanged. -/
theorem getProp_setProp_ne {v w x : JSVal} {k k' : String}
    (h : jsSetProp v k x = some w) (hne : k ≠ k') :
    jsGetProp w k' = jsGetProp v k' := by
  rcases v with _ | _ | _ | q | s | b | xs | fs | ⟨xs, props⟩
  case vObj =>
    obtain rfl : vObj (updFields fs k x) = w := Option.some.inj h
    show (lookupField (updFields fs k x) k').getD vUndefined = _
    rw [lookup_updFields_ne _ _ _ _ hne]
    rfl
  case vArr =>
    obtain rfl : vArrP xs [(k, x)] = w := Option.some.inj h
    show (lookupField [(k, x)] k').getD vUndefined = vUndefined
    rw [lookupField, if_neg hne]
    rfl
  case vArrP =>
    obtain rfl : vArrP xs (updFields props k x) = w := Option.some.inj h
    show (lookupField (updFields props k x) k').getD vUndefined = _
    rw [lookup_updFields_ne _ _ _ _ hne]
    rfl
  all_goals cases h

/-- A falsy value reads `undefined` at every key (objects are truthy). -/
theorem getProp_falsy {c : JSVal} (hc : jsTruthy c = false) (k : String) :
    jsGetProp c k = vUndefined := by
  rcases c with _ | _ | _ | q | s | b | xs | fs | ⟨xs, props⟩ <;>
    first | rfl | cases hc

/-- One reward sub-merge step leaves reads at a different sub-key
unchanged. -/
theorem mergeRpsSub_preserves {cur c' : Option JSVal} {prps : JSVal} {k k' : String}
    (h : mergeRpsSub cur prps k = some c') (hne : k ≠ k') :
    jsGetProp (c'.getD vUndefined) k' = jsGetProp (cur.getD vUndefined) k' := by
  rw [mergeRpsSub] at h
  by_cases hg : jsTruthy (jsGetProp prps k) && isValidData (jsGetProp prps k)
  · rw [if_pos hg] at h
    by_cases hi : !jsTruthy (cur.getD vUndefined) ||
        !jsTruthy (jsGetProp (cur.getD vUndefined) k) ||
        !isValidData (jsGetProp (cur.getD vUndefined) k)
    · rw [if_pos hi] at h
      dsimp only at h
      rcases hs : jsSetProp (if jsTruthy (cur.getD vUndefined) then cur.getD vUndefined
          else vObj []) k (jsGetProp prps k) with _ | w
      · rw [hs] at h; cases h
      · rw [hs] at h
        obtain rfl : some w = c' := Option.some.inj h
        show jsGetProp w k' = _
        rw [getProp_setProp_ne hs hne]
        by_cases hct : jsTruthy (cur.getD vUndefined)
        · rw [if_pos hct]
        · have hcf : jsTruthy (cur.getD vUndefined) = false := by
            simpa using hct
          rw [if_neg hct, getProp_falsy hcf k']
          rfl
    · rw [if_neg hi] at h
      obtain rfl := Option.some.inj h
      rfl
  · rw [if_neg hg] at h
    obtain rfl := Option.some.inj h
    rfl

/-- A sub-step whose pattern value is the number 0 is skipped. -/
theorem mergeRpsSub_zero {cur : Option JSVal} {prps : JSVal} {k : String}
    (hz : jsGetProp prps k = vNum 0) :
    mergeRpsSub cur prps k = some cur := by
  rw [mergeRpsSub, hz]
  rfl

/-- Through a full reward merge, a sub-key whose pattern value is the
number 0 keeps the llm-side value. -/
theorem mergeRps_zero_preserves {arps prps rps : Option JSVal}
    (h : mergeRps arps prps = some rps) (K : String)
    (hK : K = obKey ∨ K = eKey ∨ K = cbKey)
    (hz : jsGetProp (prps.getD vUndefined) K = vNum 0) :
    jsGetProp (rps.getD vUndefined) K = jsGetProp (arps.getD vUndefined) K := by
  rw [mergeRps] at h
  by_cases hp : jsTruthy (prps.getD vUndefined)
  case neg =>
    rw [if_neg hp] at h
    obtain rfl := Option.some.inj h
    rfl
  case pos =>
    rw [if_pos hp] at h
    rcases hK with rfl | rfl | rfl
    · rw [mergeRpsSub_zero hz] at h
      simp only [Option.bind_eq_bind, Option.some_bind] at h
      rcases h2 : mergeRpsSub arps (prps.getD vUndefined) eKey with _ | c2
      · rw [h2] at h; cases h
      · rw [h2, Option.some_bind] at h
        rw [mergeRpsSub_preserves h (by decide),
          mergeRpsSub_preserves h2 (by decide)]
    · rcases h1 : mergeRpsSub arps (prps.getD vUndefined) obKey with _ | c1
      · simp only [Option.bind_eq_bind, h1, Option.none_bind] at h
        cases h
      · rw [h1] at h
        simp only [Option.bind_eq_bind, Option.some_bind] at h
        rw [mergeRpsSub_zero hz, Option.some_bind] at h
        rw [mergeRpsSub_preserves h (by decide),
          mergeRpsSub_preserves h1 (by decide)]
    · rcases h1 : mergeRpsSub arps (prps.getD vUndefined) obKey with _ | c1
      · simp only [Option.bind_eq_bind, h1, Option.none_bind] at h
        cases h
      · rw [h1] at h
        simp only [Option.bind_eq_bind, Option.some_bind] at h
        rcases h2 : mergeRpsSub c1 (prps.getD vUndefined) eKey with _ | c2
        · rw [h2] at h; cases h
        · rw [h2, Option.some_bind, mergeRpsSub_zero hz] at h
          obtain rfl := Option.some.inj h
          rw [mergeRpsSub_preserves h2 (by decide),
            mergeRpsSub_preserves h1 (by decide)]

/-- `fillField` ignores a pattern value of numeric 0 (it is falsy). -/
theorem fillField_zero (cur : Option JSVal) :
    fillField cur (some (vNum 0)) = cur := by
  simp [fillField, jsTruthy]

/-- C10: each merge assignment is guarded by JS truthiness of the pattern
value before the Validator is consulted, so a pattern value equal to the
number 0 — usable per the Validator — is never assigned: for every
financial-amount field, date field, and reward sub-field, if the pattern
side carries the number 0 the merged record keeps the llm side's value. -/
theorem merge_ignores_pattern_zero (ai p m : JSRecord)
    (h : robustDataMerging ai p = some m) :
    (p.total_amount_due = some (vNum 0) → m.total_amount_due = ai.total_amount_due) ∧
    (p.minimum_amount_due = some (vNum 0) → m.minimum_amount_due = ai.minimum_amount_due) ∧
    (p.credit_limit = some (vNum 0) → m.credit_limit = ai.credit_limit) ∧
    (p.available_credit_limit = some (vNum 0) →
      m.available_credit_limit = ai.available_credit_limit) ∧
    (p.statement_date = some (vNum 0) → m.statement_date = ai.statement_date) ∧
    (p.payment_due_date = some (vNum 0) → m.payment_due_date = ai.payment_due_date) ∧
    (∀ K, (K = obKey ∨ K = eKey ∨ K = cbKey) →
      jsGetProp (p.reward_points_summary.getD vUndefined) K = vNum 0 →
      jsGetProp (m.reward_points_summary.getD vUndefined) K =
        jsGetProp (ai.reward_points_summary.getD vUndefined) K) := by
  obtain ⟨rps, hrps, hm⟩ := robustDataMerging_eq_some h
  subst hm
  refine ⟨fun hz => ?_, fun hz => ?_, fun hz => ?_, fun hz => ?_, fun hz => ?_,
    fun hz => ?_, fun K hK hz => ?_⟩
  · show fillField _ _ = _; rw [hz, fillField_zero]
  · show fillField _ _ = _; rw [hz, fillField_zero]
  · show fillField _ _ = _; rw [hz, fillField_zero]
  · show fillField _ _ = _; rw [hz, fillField_zero]
  · show fillField _ _ = _; rw [hz, fillField_zero]
  · show fillField _ _ = _; rw [hz, fillField_zero]
  · exact mergeRps_zero_preserves hrps K hK hz

/-- Witness for `merge_ignores_pattern_zero`: a pattern `credit_limit` of 0
against an absent llm `credit_limit` leaves the field absent. -/
theorem merge_ignores_pattern_zero_witness :
    (noKeys.credit_limit : Option JSVal) = none ∧
    ({ noKeys with credit_limit := some (vNum 0)} : JSRecord).credit_limit =
      some (vNum 0) ∧
    (none : Option JSVal) = noKeys.credit_limit := by
  refine ⟨rfl, rfl, ?_⟩
  exact (merge_ignores_pattern_zero noKeys
    { noKeys with credit_limit := some (vNum 0) } noKeys rfl).2.2.1 rfl

/-! ## C2: the three derivation invariants of finalization -/

/-- Re-validation keeps a valid present value. -/
theorem keepValid_valid {v : JSVal} (h : isValidData v = true) (d : JSVal) :
    keepValid (some v) d = v := by
  rw [keepValid, if_pos h]

/-- Re-validation replaces an absent or invalid value by the default. -/
theorem keepValid_invalid {o : Option JSVal}
    (h : isValidData (o.getD vUndefined) = false) (d : JSVal) :
    keepValid o d = d := by
  rcases o with _ | v
  · rfl
  · rw [keepValid, if_neg]
    rw [Option.getD_some] at h
    simp [h]

/-- Null-coalescing preserves invalidity (it only maps undefined to null). -/
theorem coalesceSub_invalid {v : JSVal} {k : String}
    (h : isValidData (jsGetProp v k) = false) :
    isValidData (coalesceSub v k) = false := by
  rw [coalesceSub]
  rcases hx : jsGetProp v k with _ | _ | _ | q | s | b | xs | fs | ⟨xs, props⟩ <;>
    rw [hx] at h <;> first | rfl | exact h

/-- Null-coalescing is the identity on a value that is not null/undefined. -/
theorem coalesceSub_of_get {v : JSVal} {k : String} {x : JSVal}
    (h : jsGetProp v k = x) (hx : x ≠ vNull) (hx' : x ≠ vUndefined) :
    coalesceSub v k = x := by
  rw [coalesceSub, h]
  rcases x with _ | _ | _ | q | s | b | xs | fs | ⟨xs, props⟩ <;>
    first
      | exact absurd rfl hx
      | exact absurd rfl hx'
      | rfl

/-- A successful keyed lookup forces a non-empty object. -/
theorem obj_valid_of_get {fs : List (String × JSVal)} {k : String} {q : ℚ}
    (h : jsGetProp (vObj fs) k = vNum q) : isValidData (vObj fs) = true := by
  cases fs with
  | nil => cases h
  | cons a rest => rfl

/-- C2: after finalization (re-validate, then derive available credit,
reward closing balance and minimum due, once each, in that source order):
a merged record with numeric usable `credit_limit` and `total_amount_due`
and unusable/absent `available_credit_limit` gets
`available_credit_limit = credit_limit - total_amount_due`; a merged reward
object with numeric opening and earned and unusable closing gets
`closing_balance = opening + earned`; a merged record with numeric usable
`total_amount_due` and unusable/absent `minimum_amount_due` gets
`minimum_amount_due = round(total * 0.05 * 100) / 100`, i.e. 5% rounded to
two decimals (half toward +infinity). -/
theorem finalize_derivation_invariants (d : JSRecord) :
    (∀ c t : ℚ, d.credit_limit = some (vNum c) →
      d.total_amount_due = some (vNum t) →
      isValidData (d.available_credit_limit.getD vUndefined) = false →
      (finalValidationAndCalculation d).available_credit_limit =
        some (vNum (c - t))) ∧
    (∀ (fs : List (String × JSVal)) (a b : ℚ),
      d.reward_points_summary = some (vObj fs) →
      jsGetProp (vObj fs) obKey = vNum a → jsGetProp (vObj fs) eKey = vNum b →
      isValidData (jsGetProp (vObj fs) cbKey) = false →
      jsGetProp (((finalValidationAndCalculation d).reward_points_summary).getD
        vUndefined) cbKey = vNum (a + b)) ∧
    (∀ t : ℚ, d.total_amount_due = some (vNum t) →
      isValidData (d.minimum_amount_due.getD vUndefined) = false →
      (finalValidationAndCalculation d).minimum_amount_due =
        some (vNum ((⌊t * 5 + 1 / 2⌋ : ℚ) / 100))) := by
  refine ⟨?_, ?_, ?_⟩
  · intro c t hc ht hav
    simp only [finalValidationAndCalculation, hc, ht]
    rw [keepValid_valid (show isValidData (vNum t) = true from rfl),
      keepValid_valid (show isValidData (vNum c) = true from rfl),
      keepValid_invalid hav]
    rfl
  · intro fs a b hr hob he hcb
    have hval := obj_valid_of_get hob
    have hX : isValidData (coalesceSub (vObj fs) cbKey) = false :=
      coalesceSub_invalid hcb
    simp only [finalValidationAndCalculation, hr, Option.getD_some]
    rw [validateRps, if_pos hval,
      if_pos (show jsTypeofObject (vObj fs) = true from rfl),
      coalesceSub_of_get hob (fun h => by cases h) (fun h => by cases h),
      coalesceSub_of_get he (fun h => by cases h) (fun h => by cases h)]
    rw [deriveClosing,
      show jsGetProp (vObj [(obKey, vNum a), (eKey, vNum b),
        (cbKey, coalesceSub (vObj fs) cbKey)]) obKey = vNum a from rfl,
      show jsGetProp (vObj [(obKey, vNum a), (eKey, vNum b),
        (cbKey, coalesceSub (vObj fs) cbKey)]) eKey = vNum b from rfl,
      show jsGetProp (vObj [(obKey, vNum a), (eKey, vNum b),
        (cbKey, coalesceSub (vObj fs) cbKey)]) cbKey =
        coalesceSub (vObj fs) cbKey from rfl, hX]
    rfl
  · intro t ht hmn
    simp only [finalValidationAndCalculation, ht]
    rw [keepValid_valid (show isValidData (vNum t) = true from rfl),
      keepValid_invalid hmn]
    rfl

/-- A concrete merged record: known credit limit and total due, known reward
opening/earned, everything else missing. -/
def recC2 : JSRecord :=
  { noKeys with
    credit_limit := some (vNum 50000)
    total_amount_due := some (vNum 12000)
    reward_points_summary := some (vObj [(obKey, vNum 100), (eKey, vNum 50)]) }

/-- Witness for `finalize_derivation_invariants`: 50000 and 12000 derive
available credit 38000, rewards 100 and 50 derive closing 150, total 12000
derives minimum due 600. -/
theorem finalize_derivation_invariants_witness :
    (finalValidationAndCalculation recC2).available_credit_limit =
      some (vNum 38000) ∧
    jsGetProp (((finalValidationAndCalculation recC2).reward_points_summary).getD
      vUndefined) cbKey = vNum 150 ∧
    (finalValidationAndCalculation recC2).minimum_amount_due =
      some (vNum 600) := by
  refine ⟨?_, ?_, ?_⟩
  · have h := (finalize_derivation_invariants recC2).1 50000 12000 rfl rfl rfl
    norm_num at h
    exact h
  · have h := (finalize_derivation_invariants recC2).2.1
      [(obKey, vNum 100), (eKey, vNum 50)] 100 50 rfl rfl rfl rfl
    norm_num at h
    exact h
  · have h := (finalize_derivation_invariants recC2).2.2 12000 rfl rfl
    norm_num at h
    exact h

/-! ## C3: re-validation reaches top-level fields only -/

/-- C3 counterexample: a merged `reward_points_summary` of
`\x7b opening_balance: NaN \x7d` is a valid non-empty object, so finalization
null-coalesces its sub-fields without re-validating them: the finalized
`opening_balance` is NaN — neither the explicit null default nor usable. -/
theorem finalize_rps_nan_survives :
    jsGetProp (((finalValidationAndCalculation
        { noKeys with reward_points_summary := some (vObj [(obKey, vNaN)]) }
      ).reward_points_summary).getD vUndefined) obKey = vNaN ∧
    isValidData vNaN = false ∧ vNaN ≠ vNull := by
  exact ⟨rfl, rfl, fun h => by cases h⟩

/-- `o` is the explicit-null key or holds a usable value. -/
def nullOrValid (o : Option JSVal) : Prop :=
  o = some vNull ∨ isValidData (o.getD vUndefined) = true

/-- `o` is null, usable, or the NaN a derivation can produce from usable
non-numeric operands. -/
def nullValidOrNaN (o : Option JSVal) : Prop :=
  o = some vNull ∨ isValidData (o.getD vUndefined) = true ∨ o = some vNaN

/-- Re-validation onto an invalid default yields the default or a usable
value. -/
theorem keepValid_default_or_valid (o : Option JSVal) (d' : JSVal) :
    keepValid o d' = d' ∨ isValidData (keepValid o d') = true := by
  rcases o with _ | v
  · exact Or.inl rfl
  · by_cases h : isValidData v
    · rw [keepValid_valid h]; exact Or.inr h
    · rw [keepValid, if_neg h]; exact Or.inl rfl

/-- A scalar re-validated field is null-or-valid. -/
theorem nullOrValid_keepValid (o : Option JSVal) :
    nullOrValid (some (keepValid o vNull)) := by
  rcases keepValid_default_or_valid o vNull with h | h
  · exact Or.inl (by rw [h])
  · exact Or.inr (by rw [Option.getD_some]; exact h)

/-- `jsSub` yields a number or NaN. -/
theorem jsSub_num_or_nan (a b : JSVal) :
    (∃ q, jsSub a b = vNum q) ∨ jsSub a b = vNaN := by
  rw [jsSub]
  rcases jsToNumber a with _ | x
  · exact Or.inr rfl
  · rcases jsToNumber b with _ | y
    · exact Or.inr rfl
    · exact Or.inl ⟨x - y, rfl⟩

/-- `jsMinDue` yields a number or NaN. -/
theorem jsMinDue_num_or_nan (a : JSVal) :
    (∃ q, jsMinDue a = vNum q) ∨ jsMinDue a = vNaN := by
  rw [jsMinDue]
  rcases jsToNumber a with _ | x
  · exact Or.inr rfl
  · exact Or.inl ⟨_, rfl⟩

/-- C3 (amended): finalization re-validates each top-level field, so after
the re-validation pass every non-derived top-level field is the explicit
default or usable; the derived `available_credit_limit` and
`minimum_amount_due` fields can additionally be the NaN a derivation
computes from usable non-numeric operands; and `reward_points_summary`
sub-fields are not re-validated, only null-coalesced (`?? null`): when the
merged value is a usable object, each finalized sub-field is exactly the
coalesced original (with closing possibly replaced by the derivation), so
non-null unusable candidates such as NaN or "null" survive. -/
theorem finalize_revalidation_scope (d : JSRecord) :
    nullOrValid (finalValidationAndCalculation d).customer_name ∧
    nullOrValid (finalValidationAndCalculation d).statement_date ∧
    nullOrValid (finalValidationAndCalculation d).payment_due_date ∧
    nullOrValid (finalValidationAndCalculation d).total_amount_due ∧
    nullOrValid (finalValidationAndCalculation d).credit_limit ∧
    nullOrValid (finalValidationAndCalculation d).card_number ∧
    nullOrValid (finalValidationAndCalculation d).bank_name ∧
    ((finalValidationAndCalculation d).transactions = some (vArr []) ∨
      isValidData (((finalValidationAndCalculation d).transactions).getD vUndefined) =
        true) ∧
    nullValidOrNaN (finalValidationAndCalculation d).available_credit_limit ∧
    nullValidOrNaN (finalValidationAndCalculation d).minimum_amount_due ∧
    (∀ v, d.reward_points_summary = some v → isValidData v = true →
      jsTypeofObject v = true →
      jsGetProp (((finalValidationAndCalculation d).reward_points_summary).getD
        vUndefined) obKey = coalesceSub v obKey ∧
      jsGetProp (((finalValidationAndCalculation d).reward_points_summary).getD
        vUndefined) eKey = coalesceSub v eKey ∧
      (jsGetProp (((finalValidationAndCalculation d).reward_points_summary).getD
          vUndefined) cbKey = coalesceSub v cbKey ∨
        jsGetProp (((finalValidationAndCalculation d).reward_points_summary).getD
          vUndefined) cbKey =
          jsAdd (coalesceSub v obKey) (coalesceSub v eKey))) := by
  refine ⟨nullOrValid_keepValid _, nullOrValid_keepValid _, nullOrValid_keepValid _,
    nullOrValid_keepValid _, nullOrValid_keepValid _, nullOrValid_keepValid _,
    nullOrValid_keepValid _, ?_, ?_, ?_, ?_⟩
  · rcases keepValid_default_or_valid d.transactions (vArr []) with h | h
    · exact Or.inl (by rw [show (finalValidationAndCalculation d).transactions =
        some (keepValid d.transactions (vArr [])) from rfl, h])
    · exact Or.inr (by rw [show (finalValidationAndCalculation d).transactions =
        some (keepValid d.transactions (vArr [])) from rfl, Option.getD_some]; exact h)
  · simp only [finalValidationAndCalculation]
    by_cases hg : isValidData (keepValid d.credit_limit vNull) &&
        isValidData (keepValid d.total_amount_due vNull) &&
        !isValidData (keepValid d.available_credit_limit vNull)
    · rw [if_pos hg]
      rcases jsSub_num_or_nan (keepValid d.credit_limit vNull)
          (keepValid d.total_amount_due vNull) with ⟨q, hq⟩ | hq <;> rw [hq]
      · exact Or.inr (Or.inl rfl)
      · exact Or.inr (Or.inr rfl)
    · rw [if_neg hg]
      rcases nullOrValid_keepValid d.available_credit_limit with h | h
      · exact Or.inl h
      · exact Or.inr (Or.inl h)
  · simp only [finalValidationAndCalculation]
    by_cases hg : isValidData (keepValid d.total_amount_due vNull) &&
        !isValidData (keepValid d.minimum_amount_due vNull)
    · rw [if_pos hg]
      rcases jsMinDue_num_or_nan (keepValid d.total_amount_due vNull) with ⟨q, hq⟩ | hq <;>
        rw [hq]
      · exact Or.inr (Or.inl rfl)
      · exact Or.inr (Or.inr rfl)
    · rw [if_neg hg]
      rcases nullOrValid_keepValid d.minimum_amount_due with h | h
      · exact Or.inl h
      · exact Or.inr (Or.inl h)
  · intro v hv hval hobj
    simp only [finalValidationAndCalculation, Option.getD_some, hv]
    rw [validateRps, if_pos hval, if_pos hobj, deriveClosing]
    by_cases hg : isValidData (jsGetProp (vObj [(obKey, coalesceSub v obKey),
        (eKey, coalesceSub v eKey), (cbKey, coalesceSub v cbKey)]) obKey) &&
      isValidData (jsGetProp (vObj [(obKey, coalesceSub v obKey),
        (eKey, coalesceSub v eKey), (cbKey, coalesceSub v cbKey)]) eKey) &&
      !isValidData (jsGetProp (vObj [(obKey, coalesceSub v obKey),
        (eKey, coalesceSub v eKey), (cbKey, coalesceSub v cbKey)]) cbKey)
    · rw [if_pos hg]
      exact ⟨rfl, rfl, Or.inr rfl⟩
    · rw [if_neg hg]
      exact ⟨rfl, rfl, Or.inl rfl⟩

/-- Witness for `finalize_revalidation_scope` at a concrete record whose
reward object holds one numeric sub-field. -/
theorem finalize_revalidation_scope_witness :
    jsGetProp (((finalValidationAndCalculation
        { noKeys with reward_points_summary := some (vObj [(obKey, vNum 1)]) }
      ).reward_points_summary).getD vUndefined) obKey =
      coalesceSub (vObj [(obKey, vNum 1)]) obKey :=
  ((finalize_revalidation_scope
    { noKeys with reward_points_summary := some (vObj [(obKey, vNum 1)]) }
    ).2.2.2.2.2.2.2.2.2.2 (vObj [(obKey, vNum 1)]) rfl rfl rfl).1

/-! ## C8: shape of the finalized record -/

/-- C8 counterexample: a merged `transactions` of the usable non-list string
"abc" is passed through by the re-validation loop, so the finalized record's
`transactions` is not a list. -/
theorem finalize_transactions_not_list :
    (finalValidationAndCalculation
      { noKeys with transactions := some (vStr "abc") }).transactions =
      some (vStr "abc") ∧
    (∀ xs, (vStr "abc" : JSVal) ≠ vArr xs) :=
  ⟨rfl, fun _ h => by cases h⟩

/-- The closing-balance derivation preserves the three-sub-key shape. -/
theorem deriveClosing_threeKeys (x y z : JSVal) :
    ∃ x' y' z', deriveClosing (vObj [(obKey, x), (eKey, y), (cbKey, z)]) =
      vObj [(obKey, x'), (eKey, y'), (cbKey, z')] := by
  rw [deriveClosing]
  by_cases hg : isValidData (jsGetProp (vObj [(obKey, x), (eKey, y), (cbKey, z)]) obKey) &&
      isValidData (jsGetProp (vObj [(obKey, x), (eKey, y), (cbKey, z)]) eKey) &&
      !isValidData (jsGetProp (vObj [(obKey, x), (eKey, y), (cbKey, z)]) cbKey)
  · rw [if_pos hg]
    exact ⟨x, y, _, rfl⟩
  · rw [if_neg hg]
    exact ⟨x, y, z, rfl⟩

/-- C8 (amended): the finalized record always carries the full key set, with
explicit defaults for unknowns.  `transactions` is a (possibly empty) list
whenever the merged value was absent, unusable, or itself a list — but a
usable non-list merged value is passed through.  `reward_points_summary` is
an object with exactly the three sub-keys whenever the merged value was
absent, unusable, or of object type — but a usable non-object value is
passed through. -/
theorem finalize_complete_shape (d : JSRecord) :
    ((finalValidationAndCalculation d).customer_name).isSome = true ∧
    ((finalValidationAndCalculation d).statement_date).isSome = true ∧
    ((finalValidationAndCalculation d).payment_due_date).isSome = true ∧
    ((finalValidationAndCalculation d).total_amount_due).isSome = true ∧
    ((finalValidationAndCalculation d).minimum_amount_due).isSome = true ∧
    ((finalValidationAndCalculation d).credit_limit).isSome = true ∧
    ((finalValidationAndCalculation d).available_credit_limit).isSome = true ∧
    ((finalValidationAndCalculation d).card_number).isSome = true ∧
    ((finalValidationAndCalculation d).transactions).isSome = true ∧
    ((finalValidationAndCalculation d).reward_points_summary).isSome = true ∧
    ((finalValidationAndCalculation d).bank_name).isSome = true ∧
    (isValidData (d.transactions.getD vUndefined) = false ∨
        (∃ xs, d.transactions = some (vArr xs)) →
      ∃ ys, (finalValidationAndCalculation d).transactions = some (vArr ys)) ∧
    (isValidData (d.reward_points_summary.getD vUndefined) = false ∨
        jsTypeofObject (d.reward_points_summary.getD vUndefined) = true →
      ∃ x y z, (finalValidationAndCalculation d).reward_points_summary =
        some (vObj [(obKey, x), (eKey, y), (cbKey, z)])) := by
  refine ⟨rfl, rfl, rfl, rfl, rfl, rfl, rfl, rfl, rfl, rfl, rfl, ?_, ?_⟩
  · rintro (h | ⟨xs, hxs⟩)
    · exact ⟨[], by rw [show (finalValidationAndCalculation d).transactions =
        some (keepValid d.transactions (vArr [])) from rfl, keepValid_invalid h]⟩
    · by_cases hv : isValidData (vArr xs)
      · exact ⟨xs, by rw [show (finalValidationAndCalculation d).transactions =
          some (keepValid d.transactions (vArr [])) from rfl, hxs, keepValid_valid hv]⟩
      · exact ⟨[], by rw [show (finalValidationAndCalculation d).transactions =
          some (keepValid d.transactions (vArr [])) from rfl, hxs, keepValid,
          if_neg (by simp [hv])]⟩
  · intro h
    have hshape : ∃ x y z, validateRps d.reward_points_summary =
        vObj [(obKey, x), (eKey, y), (cbKey, z)] := by
      cases hrps : d.reward_points_summary with
      | none => exact ⟨vNull, vNull, vNull, rfl⟩
      | some v =>
        rw [hrps, Option.getD_some] at h
        rw [validateRps]
        by_cases hv : isValidData v
        · rcases h with h | h
          · rw [h] at hv
            cases hv
          · rw [if_pos hv, if_pos h]
            exact ⟨_, _, _, rfl⟩
        · rw [if_neg hv]
          exact ⟨vNull, vNull, vNull, rfl⟩
    obtain ⟨x, y, z, hxyz⟩ := hshape
    have : (finalValidationAndCalculation d).reward_points_summary =
        some (deriveClosing (validateRps d.reward_points_summary)) := rfl
    rw [this, hxyz]
    obtain ⟨x', y', z', h3⟩ := deriveClosing_threeKeys x y z
    exact ⟨x', y', z', by rw [h3]⟩

/-- Witness for `finalize_complete_shape`: the all-absent merged record
finalizes to an empty transactions list and the three-null reward object. -/
theorem finalize_complete_shape_witness :
    (∃ ys, (finalValidationAndCalculation noKeys).transactions = some (vArr ys)) ∧
    (∃ x y z, (finalValidationAndCalculation noKeys).reward_points_summary =
      some (vObj [(obKey, x), (eKey, y), (cbKey, z)])) :=
  ⟨(finalize_complete_shape noKeys).2.2.2.2.2.2.2.2.2.2.2.1 (Or.inl rfl),
   (finalize_complete_shape noKeys).2.2.2.2.2.2.2.2.2.2.2.2 (Or.inl rfl)⟩

/-! ## C4: merge-then-finalize idempotence

The second pass is analysed in two halves: `finalValidationAndCalculation`
is idempotent outright, and a finalized record absorbs a second merge with
the same pattern record (up to the transactions-length and empty-reward-array
caveats below). -/

/-- Re-validating a re-validated field is a no-op when the default is
invalid (the defaults are `null` and `[]`). -/
theorem keepValid_idem (o : Option JSVal) {d' : JSVal}
    (hd' : isValidData d' = false) :
    keepValid (some (keepValid o d')) d' = keepValid o d' := by
  rcases keepValid_default_or_valid o d' with h | h
  · rw [h, keepValid, if_neg (by simp [hd'])]
  · rw [keepValid_valid h]

/-- Null-coalescing never produces `undefined`. -/
theorem coalesceSub_ne_undefined (v : JSVal) (k : String) :
    coalesceSub v k ≠ vUndefined := by
  rw [coalesceSub]
  rcases h : jsGetProp v k with _ | _ | _ | q | s | b | xs | fs | ⟨xs, props⟩ <;>
    intro hc <;> cases hc

/-- Null-coalescing is the identity away from `undefined`. -/
theorem coalesceSub_get_ne_undefined {v : JSVal} {k : String}
    (h : jsGetProp v k ≠ vUndefined) : coalesceSub v k = jsGetProp v k := by
  rw [coalesceSub]
  rcases hx : jsGetProp v k with _ | _ | _ | q | s | b | xs | fs | ⟨xs, props⟩ <;>
    first | rfl | exact absurd hx h

/-- JS `+` yields a string, a number, or NaN. -/
theorem jsAdd_shape (a b : JSVal) :
    (∃ s, jsAdd a b = vStr s) ∨ (∃ q, jsAdd a b = vNum q) ∨ jsAdd a b = vNaN := by
  rw [jsAdd]
  split
  · exact Or.inl ⟨_, rfl⟩
  · exact Or.inl ⟨_, rfl⟩
  · split
    · exact Or.inr (Or.inl ⟨_, rfl⟩)
    · exact Or.inr (Or.inr rfl)

/-- JS `+` never produces `undefined`. -/
theorem jsAdd_ne_undefined (a b : JSVal) : jsAdd a b ≠ vUndefined := by
  rcases jsAdd_shape a b with ⟨s, h⟩ | ⟨q, h⟩ | h <;> rw [h] <;>
    intro hc <;> cases hc

/-- A non-object value has no properties. -/
theorem getProp_non_object {v : JSVal} (h : jsTypeofObject v = false) (k : String) :
    jsGetProp v k = vUndefined := by
  rcases v with _ | _ | _ | q | s | b | xs | fs | ⟨xs, props⟩ <;> first | rfl | cases h

/-- `deriveClosing` is the identity on non-object values. -/
theorem deriveClosing_non_object {v : JSVal} (h : jsTypeofObject v = false) :
    deriveClosing v = v := by
  rw [deriveClosing, if_neg]
  rw [getProp_non_object h obKey]
  simp [isValidData]

/-- The possible shapes of a re-validated `reward_points_summary`: the
rebuilt three-key object (with no `undefined` entry), or a passed-through
usable non-object value. -/
theorem validateRps_cases (o : Option JSVal) :
    (∃ x y z, validateRps o = vObj [(obKey, x), (eKey, y), (cbKey, z)] ∧
      x ≠ vUndefined ∧ y ≠ vUndefined ∧ z ≠ vUndefined) ∨
    (∃ v, o = some v ∧ validateRps o = v ∧ isValidData v = true ∧
      jsTypeofObject v = false) := by
  rcases o with _ | v
  · refine Or.inl ⟨vNull, vNull, vNull, rfl, ?_, ?_, ?_⟩ <;> (intro hc; cases hc)
  · rw [validateRps]
    by_cases hv : isValidData v
    · rw [if_pos hv]
      by_cases ho : jsTypeofObject v
      · rw [if_pos ho]
        exact Or.inl ⟨_, _, _, rfl, coalesceSub_ne_undefined v obKey,
          coalesceSub_ne_undefined v eKey, coalesceSub_ne_undefined v cbKey⟩
      · rw [if_neg ho]
        exact Or.inr ⟨v, rfl, rfl, hv, Bool.not_eq_true _ ▸ ho⟩
    · rw [if_neg hv]
      refine Or.inl ⟨vNull, vNull, vNull, rfl, ?_, ?_, ?_⟩ <;> (intro hc; cases hc)

/-- `deriveClosing` on a three-key object: sets closing to `opening + earned`
when the guard holds, else leaves the object unchanged. -/
theorem deriveClosing_threeKey_eq (x y z : JSVal) :
    ((isValidData x && isValidData y && !isValidData z) = true →
      deriveClosing (vObj [(obKey, x), (eKey, y), (cbKey, z)]) =
        vObj [(obKey, x), (eKey, y), (cbKey, jsAdd x y)]) ∧
    ((isValidData x && isValidData y && !isValidData z) = false →
      deriveClosing (vObj [(obKey, x), (eKey, y), (cbKey, z)]) =
        vObj [(obKey, x), (eKey, y), (cbKey, z)]) := by
  constructor <;> intro hg <;>
    rw [deriveClosing,
      show jsGetProp (vObj [(obKey, x), (eKey, y), (cbKey, z)]) obKey = x from rfl,
      show jsGetProp (vObj [(obKey, x), (eKey, y), (cbKey, z)]) eKey = y from rfl,
      show jsGetProp (vObj [(obKey, x), (eKey, y), (cbKey, z)]) cbKey = z from rfl]
  · rw [if_pos hg]
    rfl
  · rw [if_neg (by rw [hg]; exact Bool.false_ne_true)]

/-- Re-validating an already three-key object with no `undefined` entries is
the identity. -/
theorem validateRps_threeKey (x y z : JSVal) (hx : x ≠ vUndefined)
    (hy : y ≠ vUndefined) (hz : z ≠ vUndefined) :
    validateRps (some (vObj [(obKey, x), (eKey, y), (cbKey, z)])) =
      vObj [(obKey, x), (eKey, y), (cbKey, z)] := by
  rw [validateRps,
    if_pos (show isValidData (vObj [(obKey, x), (eKey, y), (cbKey, z)]) = true from rfl),
    if_pos (show jsTypeofObject (vObj [(obKey, x), (eKey, y), (cbKey, z)]) = true from rfl),
    coalesceSub_get_ne_undefined (v := vObj [(obKey, x), (eKey, y), (cbKey, z)])
      (k := obKey) (fun hc => hx ((show jsGetProp (vObj [(obKey, x), (eKey, y),
        (cbKey, z)]) obKey = x from rfl).symm.trans hc)),
    coalesceSub_get_ne_undefined (v := vObj [(obKey, x), (eKey, y), (cbKey, z)])
      (k := eKey) (fun hc => hy ((show jsGetProp (vObj [(obKey, x), (eKey, y),
        (cbKey, z)]) eKey = y from rfl).symm.trans hc)),
    coalesceSub_get_ne_undefined (v := vObj [(obKey, x), (eKey, y), (cbKey, z)])
      (k := cbKey) (fun hc => hz ((show jsGetProp (vObj [(obKey, x), (eKey, y),
        (cbKey, z)]) cbKey = z from rfl).symm.trans hc))]
  rfl

/-- The reward half of finalization is idempotent. -/
theorem deriveClosing_validateRps_idem (o : Option JSVal) :
    deriveClosing (validateRps (some (deriveClosing (validateRps o)))) =
      deriveClosing (validateRps o) := by
  rcases validateRps_cases o with ⟨x, y, z, hL, hx, hy, hz⟩ | ⟨v, -, hveq, hval, hto⟩
  · rw [hL]
    by_cases hg : isValidData x && isValidData y && !isValidData z
    · have hg2 := hg
      simp only [Bool.and_eq_true] at hg2
      obtain ⟨⟨hgx, hgy⟩, -⟩ := hg2
      rw [(deriveClosing_threeKey_eq x y z).1 hg,
        validateRps_threeKey x y (jsAdd x y) hx hy (jsAdd_ne_undefined x y)]
      by_cases hw : isValidData (jsAdd x y)
      · rw [(deriveClosing_threeKey_eq x y (jsAdd x y)).2 (by simp [hw])]
      · have hw' : isValidData (jsAdd x y) = false := Bool.eq_false_iff.mpr hw
        rw [(deriveClosing_threeKey_eq x y (jsAdd x y)).1 (by simp [hgx, hgy, hw'])]
    · have hg' : (isValidData x && isValidData y && !isValidData z) = false :=
        Bool.eq_false_iff.mpr hg
      rw [(deriveClosing_threeKey_eq x y z).2 hg',
        validateRps_threeKey x y z hx hy hz,
        (deriveClosing_threeKey_eq x y z).2 hg']
  · rw [hveq, deriveClosing_non_object hto, validateRps, if_pos hval,
      if_neg (by rw [hto]; exact Bool.false_ne_true), deriveClosing_non_object hto]

/-- `finalValidationAndCalculation` is idempotent. -/
theorem finalize_idem (d : JSRecord) :
    finalValidationAndCalculation (finalValidationAndCalculation d) =
      finalValidationAndCalculation d := by
  refine JSRecord.ext ?_ ?_ ?_ ?_ ?_ ?_ ?_ ?_ ?_ ?_ ?_
  · exact congrArg some (keepValid_idem d.customer_name rfl)
  · exact congrArg some (keepValid_idem d.statement_date rfl)
  · exact congrArg some (keepValid_idem d.payment_due_date rfl)
  · exact congrArg some (keepValid_idem d.total_amount_due rfl)
  · -- minimum_amount_due: the derivation re-computes the same value
    simp only [finalValidationAndCalculation]
    rw [keepValid_idem d.total_amount_due (show isValidData vNull = false from rfl)]
    by_cases hg : isValidData (keepValid d.total_amount_due vNull) &&
        !isValidData (keepValid d.minimum_amount_due vNull)
    · have hg2 := hg
      simp only [Bool.and_eq_true] at hg2
      rw [if_pos hg]
      rcases jsMinDue_num_or_nan (keepValid d.total_amount_due vNull) with ⟨q, hq⟩ | hq <;>
        rw [hq]
      · rw [keepValid_valid (show isValidData (vNum q) = true from rfl),
          if_neg (by
            intro hc
            rw [show isValidData (vNum q) = true from rfl] at hc
            simp at hc)]
      · rw [show keepValid (some vNaN) vNull = vNull from rfl,
          if_pos (by rw [hg2.1]; rfl)]
    · rw [if_neg hg,
        keepValid_idem d.minimum_amount_due (show isValidData vNull = false from rfl),
        if_neg hg]
  · exact congrArg some (keepValid_idem d.credit_limit rfl)
  · -- available_credit_limit: the derivation re-computes the same value
    simp only [finalValidationAndCalculation]
    rw [keepValid_idem d.credit_limit (show isValidData vNull = false from rfl),
      keepValid_idem d.total_amount_due (show isValidData vNull = false from rfl)]
    by_cases hg : isValidData (keepValid d.credit_limit vNull) &&
        isValidData (keepValid d.total_amount_due vNull) &&
        !isValidData (keepValid d.available_credit_limit vNull)
    · have hg2 := hg
      simp only [Bool.and_eq_true] at hg2
      rw [if_pos hg]
      rcases jsSub_num_or_nan (keepValid d.credit_limit vNull)
          (keepValid d.total_amount_due vNull) with ⟨q, hq⟩ | hq <;> rw [hq]
      · rw [keepValid_valid (show isValidData (vNum q) = true from rfl),
          if_neg (by
            intro hc
            rw [show isValidData (vNum q) = true from rfl] at hc
            simp at hc)]
      · rw [show keepValid (some vNaN) vNull = vNull from rfl,
          if_pos (by rw [hg2.1.1, hg2.1.2]; rfl)]
    · rw [if_neg hg,
        keepValid_idem d.available_credit_limit (show isValidData vNull = false from rfl),
        if_neg hg]
  · exact congrArg some (keepValid_idem d.card_number rfl)
  · exact congrArg some (keepValid_idem d.transactions rfl)
  · exact congrArg some (deriveClosing_validateRps_idem d.reward_points_summary)
  · exact congrArg some (keepValid_idem d.bank_name rfl)

/-- `updFields` makes the written key readable. -/
theorem lookup_updFields_self (fs : List (String × JSVal)) (k : String) (v : JSVal) :
    lookupField (updFields fs k v) k = some v := by
  induction fs with
  | nil => simp [updFields, lookupField]
  | cons a rest ih =>
    rw [updFields]
    by_cases ha : a.1 = k
    · rw [if_pos ha]
      show lookupField ((a.1, v) :: rest) k = some v
      rw [lookupField, if_pos ha]
    · rw [if_neg ha]
      show lookupField ((a.1, a.2) :: _) k = some v
      rw [lookupField, if_neg ha, ih]

/-- A successful property write makes the written key readable. -/
theorem getProp_setProp_self {v w x : JSVal} {k : String}
    (h : jsSetProp v k x = some w) :
    jsGetProp w k = x := by
  rcases v with _ | _ | _ | q | s | b | xs | fs | ⟨xs, props⟩
  case vObj =>
    obtain rfl : vObj (updFields fs k x) = w := Option.some.inj h
    show (lookupField (updFields fs k x) k).getD vUndefined = x
    rw [lookup_updFields_self]
    rfl
  case vArr =>
    obtain rfl : vArrP xs [(k, x)] = w := Option.some.inj h
    show (lookupField [(k, x)] k).getD vUndefined = x
    rw [lookupField, if_pos rfl]
    rfl
  case vArrP =>
    obtain rfl : vArrP xs (updFields props k x) = w := Option.some.inj h
    show (lookupField (updFields props k x) k).getD vUndefined = x
    rw [lookup_updFields_self]
    rfl
  all_goals cases h

/-- After a reward sub-merge step whose pattern sub-value is truthy and
valid, the resulting sub-value at that key is truthy and valid. -/
theorem mergeRpsSub_result {cur c' : Option JSVal} {prps : JSVal} {k : String}
    (h : mergeRpsSub cur prps k = some c')
    (hpt : jsTruthy (jsGetProp prps k) = true)
    (hpv : isValidData (jsGetProp prps k) = true) :
    jsTruthy (jsGetProp (c'.getD vUndefined) k) = true ∧
      isValidData (jsGetProp (c'.getD vUndefined) k) = true := by
  rw [mergeRpsSub, if_pos (by rw [hpt, hpv]; rfl)] at h
  by_cases hi : !jsTruthy (cur.getD vUndefined) ||
      !jsTruthy (jsGetProp (cur.getD vUndefined) k) ||
      !isValidData (jsGetProp (cur.getD vUndefined) k)
  · rw [if_pos hi] at h
    dsimp only at h
    rcases hs : jsSetProp (if jsTruthy (cur.getD vUndefined) then cur.getD vUndefined
        else vObj []) k (jsGetProp prps k) with _ | w
    · rw [hs] at h; cases h
    · rw [hs] at h
      obtain rfl : some w = c' := Option.some.inj h
      rw [show (some w : Option JSVal).getD vUndefined = w from rfl,
        getProp_setProp_self hs]
      exact ⟨hpt, hpv⟩
  · rw [if_neg hi] at h
    obtain rfl := Option.some.inj h
    have hi2 : ¬(¬jsTruthy (cur.getD vUndefined) = true ∨
        ¬jsTruthy (jsGetProp (cur.getD vUndefined) k) = true ∨
        ¬isValidData (jsGetProp (cur.getD vUndefined) k) = true) := by
      intro hor
      apply hi
      rcases hor with h1 | h1 | h1 <;> simp [Bool.eq_false_iff.mpr h1]
    push_neg at hi2
    exact ⟨hi2.2.1, hi2.2.2⟩

/-- A truthy property read forces a truthy (object) container. -/
theorem truthy_of_getProp_truthy {v : JSVal} {k : String}
    (h : jsTruthy (jsGetProp v k) = true) : jsTruthy v = true := by
  rcases v with _ | _ | _ | q | s | b | xs | fs | ⟨xs, props⟩ <;> first | cases h | rfl

/-- Through a full pass-1 reward merge, a sub-key whose pattern value is
truthy and valid ends up truthy and valid in the merged object. -/
theorem mergeRps_result {arps prps mrps : Option JSVal}
    (h : mergeRps arps prps = some mrps) (K : String)
    (hK : K = obKey ∨ K = eKey ∨ K = cbKey)
    (hpt : jsTruthy (jsGetProp (prps.getD vUndefined) K) = true)
    (hpv : isValidData (jsGetProp (prps.getD vUndefined) K) = true) :
    jsTruthy (jsGetProp (mrps.getD vUndefined) K) = true ∧
      isValidData (jsGetProp (mrps.getD vUndefined) K) = true := by
  rw [mergeRps, if_pos (truthy_of_getProp_truthy hpt)] at h
  rcases hK with rfl | rfl | rfl
  · rcases h1 : mergeRpsSub arps (prps.getD vUndefined) obKey with _ | c1
    · simp only [Option.bind_eq_bind, h1, Option.none_bind] at h
      cases h
    · rw [h1] at h
      simp only [Option.bind_eq_bind, Option.some_bind] at h
      rcases h2 : mergeRpsSub c1 (prps.getD vUndefined) eKey with _ | c2
      · rw [h2] at h; cases h
      · rw [h2, Option.some_bind] at h
        obtain ⟨t1, v1⟩ := mergeRpsSub_result h1 hpt hpv
        rw [mergeRpsSub_preserves h (by decide),
          mergeRpsSub_preserves h2 (by decide)]
        exact ⟨t1, v1⟩
  · rcases h1 : mergeRpsSub arps (prps.getD vUndefined) obKey with _ | c1
    · simp only [Option.bind_eq_bind, h1, Option.none_bind] at h
      cases h
    · rw [h1] at h
      simp only [Option.bind_eq_bind, Option.some_bind] at h
      rcases h2 : mergeRpsSub c1 (prps.getD vUndefined) eKey with _ | c2
      · rw [h2] at h; cases h
      · rw [h2, Option.some_bind] at h
        obtain ⟨t2, v2⟩ := mergeRpsSub_result h2 hpt hpv
        rw [mergeRpsSub_preserves h (by decide)]
        exact ⟨t2, v2⟩
  · rcases h1 : mergeRpsSub arps (prps.getD vUndefined) obKey with _ | c1
    · simp only [Option.bind_eq_bind, h1, Option.none_bind] at h
      cases h
    · rw [h1] at h
      simp only [Option.bind_eq_bind, Option.some_bind] at h
      rcases h2 : mergeRpsSub c1 (prps.getD vUndefined) eKey with _ | c2
      · rw [h2] at h; cases h
      · rw [h2, Option.some_bind] at h
        exact mergeRpsSub_result h hpt hpv

/-- Truthiness excludes `undefined`. -/
theorem ne_undefined_of_truthy {x : JSVal} (h : jsTruthy x = true) :
    x ≠ vUndefined := by
  intro hc
  rw [hc] at h
  cases h

/-- Reads on the rebuilt three-key object. -/
theorem getProp_threeKey_ob (x y z : JSVal) :
    jsGetProp (vObj [(obKey, x), (eKey, y), (cbKey, z)]) obKey = x := rfl

/-- Reads on the rebuilt three-key object (second key). -/
theorem getProp_threeKey_e (x y z : JSVal) :
    jsGetProp (vObj [(obKey, x), (eKey, y), (cbKey, z)]) eKey = y := rfl

/-- Reads on the rebuilt three-key object (third key). -/
theorem getProp_threeKey_cb (x y z : JSVal) :
    jsGetProp (vObj [(obKey, x), (eKey, y), (cbKey, z)]) cbKey = z := rfl

/-- The three-key analysis behind `finalized_rps_property`, for any valid
container of object type (a non-empty keyed object, or a non-empty array
carrying a named property). -/
theorem finalized_rps_property_obj {v : JSVal} (K : String)
    (hK : K = obKey ∨ K = eKey ∨ K = cbKey)
    (hval : isValidData v = true) (hto : jsTypeofObject v = true)
    (ht : jsTruthy (jsGetProp v K) = true)
    (hv : isValidData (jsGetProp v K) = true) :
    jsTruthy (deriveClosing (validateRps (some v))) = true ∧
    jsTruthy (jsGetProp (deriveClosing (validateRps (some v))) K) = true ∧
    isValidData (jsGetProp (deriveClosing (validateRps (some v))) K) = true := by
  have hne : jsGetProp v K ≠ vUndefined := ne_undefined_of_truthy ht
  rw [validateRps, if_pos hval, if_pos hto]
  rcases hK with rfl | rfl | rfl
  · by_cases hg : isValidData (coalesceSub v obKey) &&
        isValidData (coalesceSub v eKey) &&
        !isValidData (coalesceSub v cbKey)
    · rw [(deriveClosing_threeKey_eq _ _ _).1 hg, getProp_threeKey_ob,
        coalesceSub_get_ne_undefined hne]
      exact ⟨rfl, ht, hv⟩
    · rw [(deriveClosing_threeKey_eq _ _ _).2 (Bool.eq_false_iff.mpr hg),
        getProp_threeKey_ob, coalesceSub_get_ne_undefined hne]
      exact ⟨rfl, ht, hv⟩
  · by_cases hg : isValidData (coalesceSub v obKey) &&
        isValidData (coalesceSub v eKey) &&
        !isValidData (coalesceSub v cbKey)
    · rw [(deriveClosing_threeKey_eq _ _ _).1 hg, getProp_threeKey_e,
        coalesceSub_get_ne_undefined hne]
      exact ⟨rfl, ht, hv⟩
    · rw [(deriveClosing_threeKey_eq _ _ _).2 (Bool.eq_false_iff.mpr hg),
        getProp_threeKey_e, coalesceSub_get_ne_undefined hne]
      exact ⟨rfl, ht, hv⟩
  · have hg : (isValidData (coalesceSub v obKey) &&
        isValidData (coalesceSub v eKey) &&
        !isValidData (coalesceSub v cbKey)) = false := by
      rw [coalesceSub_get_ne_undefined hne, hv]
      simp
    rw [(deriveClosing_threeKey_eq _ _ _).2 hg, getProp_threeKey_cb,
      coalesceSub_get_ne_undefined hne]
    exact ⟨rfl, ht, hv⟩

/-- If a merged reward sub-value is truthy and valid and the merged container
is not backed by an empty element list (an empty array keeps `length === 0`
under named-property writes and is dropped by the re-validation, losing the
sub-value), the finalized reward object is truthy and carries a truthy,
valid value at that sub-key. -/
theorem finalized_rps_property {mrps : Option JSVal} (K : String)
    (hK : K = obKey ∨ K = eKey ∨ K = cbKey)
    (hne0 : ∀ xs ps, mrps = some (vArrP xs ps) → xs ≠ [])
    (ht : jsTruthy (jsGetProp (mrps.getD vUndefined) K) = true)
    (hv : isValidData (jsGetProp (mrps.getD vUndefined) K) = true) :
    jsTruthy (deriveClosing (validateRps mrps)) = true ∧
    jsTruthy (jsGetProp (deriveClosing (validateRps mrps)) K) = true ∧
    isValidData (jsGetProp (deriveClosing (validateRps mrps)) K) = true := by
  rcases mrps with _ | v
  · simp [jsGetProp, jsTruthy] at ht
  rw [Option.getD_some] at ht hv
  rcases v with _ | _ | _ | q | s | b | xs | fs | ⟨xs, props⟩
  · simp [jsGetProp, jsTruthy] at ht
  · simp [jsGetProp, jsTruthy] at ht
  · simp [jsGetProp, jsTruthy] at ht
  · simp [jsGetProp, jsTruthy] at ht
  · simp [jsGetProp, jsTruthy] at ht
  · simp [jsGetProp, jsTruthy] at ht
  · simp [jsGetProp, jsTruthy] at ht
  · have hval : isValidData (vObj fs) = true := by
      cases fs with
      | nil => simp [jsGetProp, lookupField, jsTruthy] at ht
      | cons head tail => rfl
    exact finalized_rps_property_obj K hK hval rfl ht hv
  · have hval : isValidData (vArrP xs props) = true := by
      cases xs with
      | nil => exact absurd rfl (hne0 [] props rfl)
      | cons a as => rfl
    exact finalized_rps_property_obj K hK hval rfl ht hv

/-- One reward sub-merge step never creates an empty-element-backed container
from a non-empty one: a named-property write keeps the element list, and a
falsy container is replaced by the (object) literal before the write. -/
theorem mergeRpsSub_nonEmptyArr {cur c' : Option JSVal} {prps : JSVal} {k : String}
    (h : mergeRpsSub cur prps k = some c')
    (hc : cur ≠ some (vArr []) ∧ ∀ xs ps, cur = some (vArrP xs ps) → xs ≠ []) :
    c' ≠ some (vArr []) ∧ ∀ xs ps, c' = some (vArrP xs ps) → xs ≠ [] := by
  rw [mergeRpsSub] at h
  by_cases hg : jsTruthy (jsGetProp prps k) && isValidData (jsGetProp prps k)
  case neg =>
    rw [if_neg hg] at h
    obtain rfl := Option.some.inj h
    exact hc
  case pos =>
    rw [if_pos hg] at h
    by_cases hi : !jsTruthy (cur.getD vUndefined) ||
        !jsTruthy (jsGetProp (cur.getD vUndefined) k) ||
        !isValidData (jsGetProp (cur.getD vUndefined) k)
    case neg =>
      rw [if_neg hi] at h
      obtain rfl := Option.some.inj h
      exact hc
    case pos =>
      rw [if_pos hi] at h
      dsimp only at h
      by_cases hct : jsTruthy (cur.getD vUndefined)
      case neg =>
        rw [if_neg hct] at h
        obtain rfl : some (vObj (updFields [] k (jsGetProp prps k))) = c' :=
          Option.some.inj h
        exact ⟨fun hcon => JSVal.noConfusion (Option.some.inj hcon),
          fun xs ps hcon => JSVal.noConfusion (Option.some.inj hcon)⟩
      case pos =>
        rw [if_pos hct] at h
        rcases cur with _ | v
        · cases hct
        rw [Option.getD_some] at h
        rcases v with _ | _ | _ | q | s | b | xs | fs | ⟨xs, props⟩
        case vObj =>
          obtain rfl : some (vObj (updFields fs k (jsGetProp prps k))) = c' :=
            Option.some.inj h
          exact ⟨fun hcon => JSVal.noConfusion (Option.some.inj hcon),
            fun xs ps hcon => JSVal.noConfusion (Option.some.inj hcon)⟩
        case vArr =>
          obtain rfl : some (vArrP xs [(k, jsGetProp prps k)]) = c' :=
            Option.some.inj h
          refine ⟨fun hcon => JSVal.noConfusion (Option.some.inj hcon),
            fun ys ps hcon hys => hc.1 ?_⟩
          obtain ⟨h1, -⟩ := JSVal.vArrP.inj (Option.some.inj hcon)
          rw [h1, hys]
        case vArrP =>
          obtain rfl : some (vArrP xs (updFields props k (jsGetProp prps k))) = c' :=
            Option.some.inj h
          refine ⟨fun hcon => JSVal.noConfusion (Option.some.inj hcon),
            fun ys ps hcon hys => hc.2 xs props rfl ?_⟩
          obtain ⟨h1, -⟩ := JSVal.vArrP.inj (Option.some.inj hcon)
          rw [h1, hys]
        all_goals cases h

/-- Through a full reward merge, a container not backed by an empty element
list stays that way. -/
theorem mergeRps_nonEmptyArr {arps prps mrps : Option JSVal}
    (h : mergeRps arps prps = some mrps)
    (ha : arps ≠ some (vArr []) ∧ ∀ xs ps, arps = some (vArrP xs ps) → xs ≠ []) :
    mrps ≠ some (vArr []) ∧ ∀ xs ps, mrps = some (vArrP xs ps) → xs ≠ [] := by
  rw [mergeRps] at h
  by_cases hp : jsTruthy (prps.getD vUndefined)
  case neg =>
    rw [if_neg hp] at h
    obtain rfl := Option.some.inj h
    exact ha
  case pos =>
    rw [if_pos hp] at h
    rcases h1 : mergeRpsSub arps (prps.getD vUndefined) obKey with _ | c1
    · simp only [Option.bind_eq_bind, h1, Option.none_bind] at h
      cases h
    · rw [h1] at h
      simp only [Option.bind_eq_bind, Option.some_bind] at h
      rcases h2 : mergeRpsSub c1 (prps.getD vUndefined) eKey with _ | c2
      · rw [h2] at h; cases h
      · rw [h2, Option.some_bind] at h
        exact mergeRpsSub_nonEmptyArr h
          (mergeRpsSub_nonEmptyArr h2 (mergeRpsSub_nonEmptyArr h1 ha))

/-- A finalized reward object absorbs a second merge with the same pattern
record, provided the llm container is not backed by an empty element list:
every sub-step of pass 2 skips. -/
theorem mergeRps_absorb {arps prps mrps : Option JSVal}
    (h : mergeRps arps prps = some mrps)
    (ha : arps ≠ some (vArr []) ∧ ∀ xs ps, arps = some (vArrP xs ps) → xs ≠ []) :
    mergeRps (some (deriveClosing (validateRps mrps))) prps =
      some (some (deriveClosing (validateRps mrps))) := by
  rw [mergeRps]
  by_cases hp : jsTruthy (prps.getD vUndefined)
  case neg => rw [if_neg hp]
  case pos =>
    rw [if_pos hp]
    have step : ∀ K, (K = obKey ∨ K = eKey ∨ K = cbKey) →
        mergeRpsSub (some (deriveClosing (validateRps mrps))) (prps.getD vUndefined)
          K = some (some (deriveClosing (validateRps mrps))) := by
      intro K hK
      by_cases hpv : jsTruthy (jsGetProp (prps.getD vUndefined) K) = true ∧
          isValidData (jsGetProp (prps.getD vUndefined) K) = true
      · obtain ⟨ht3, hv3⟩ := mergeRps_result h K hK hpv.1 hpv.2
        obtain ⟨hT, hGT, hGV⟩ := finalized_rps_property K hK
          (mergeRps_nonEmptyArr h ha).2 ht3 hv3
        rw [mergeRpsSub, if_pos (by rw [hpv.1, hpv.2]; rfl), if_neg (by
          rw [Option.getD_some, hT, hGT, hGV]
          simp)]
      · rw [mergeRpsSub, if_neg (by
          intro hc
          rw [Bool.and_eq_true] at hc
          exact hpv hc)]
    rw [step obKey (Or.inl rfl)]
    simp only [Option.bind_eq_bind, Option.some_bind]
    rw [step eKey (Or.inr (Or.inl rfl)), Option.some_bind,
      step cbKey (Or.inr (Or.inr rfl))]

/-- A finalized high-priority field absorbs a second merge with the same
pattern value. -/
theorem hpField_absorb (a pv : Option JSVal) :
    hpField (some (keepValid (hpField a pv) vNull)) pv =
      some (keepValid (hpField a pv) vNull) := by
  by_cases hg : jsTruthy (pv.getD vUndefined) && isValidData (pv.getD vUndefined)
  · have hg2 := hg
    rw [Bool.and_eq_true] at hg2
    conv_lhs => rw [hpField, if_pos hg]
    rw [hpField, if_pos hg, keepValid_valid hg2.2]
  · conv_lhs => rw [hpField, if_neg hg]

/-- A finalized financial/date field absorbs a second merge with the same
pattern value. -/
theorem fillField_absorb (a pv : Option JSVal) :
    fillField (some (keepValid (fillField a pv) vNull)) pv =
      some (keepValid (fillField a pv) vNull) := by
  by_cases hg : jsTruthy (pv.getD vUndefined) && isValidData (pv.getD vUndefined)
  · have hg2 := hg
    rw [Bool.and_eq_true] at hg2
    by_cases hc : !jsTruthy (a.getD vUndefined) || !isValidData (a.getD vUndefined)
    · -- pass 1 assigned the pattern value
      have h1 : fillField a pv = some (pv.getD vUndefined) := by
        rw [fillField, if_pos hg]
        dsimp only
        rw [if_pos hc]
      rw [h1, keepValid_valid hg2.2, fillField, if_pos hg]
      dsimp only
      rw [if_neg (by
        rw [Option.getD_some, hg2.1, hg2.2]
        simp)]
    · -- pass 1 kept the truthy, valid llm value
      have hc2 : jsTruthy (a.getD vUndefined) = true ∧
          isValidData (a.getD vUndefined) = true := by
        rcases ht : jsTruthy (a.getD vUndefined) with _ | _ <;>
          rcases hv : isValidData (a.getD vUndefined) with _ | _ <;>
          simp [ht, hv] at hc ⊢
      have h1 : fillField a pv = a := by
        rw [fillField, if_pos hg]
        dsimp only
        rw [if_neg hc]
      rcases a with _ | av
      · rw [show ((none : Option JSVal).getD vUndefined) = vUndefined from rfl] at hc2
        cases hc2.1
      · rw [Option.getD_some] at hc2
        rw [h1, keepValid_valid hc2.2, fillField, if_pos hg]
        dsimp only
        rw [if_neg (by
          rw [Option.getD_some, hc2.1, hc2.2]
          simp)]
  · conv_lhs => rw [fillField, if_neg hg]

/-- A list is never strictly longer than itself under the JS comparison. -/
theorem jsGtQ_orZero_self (q : ℚ) : jsGtQ q (jsOrZero (vNum q)) = false := by
  rw [jsOrZero]
  by_cases h : jsTruthy (vNum q)
  · rw [if_pos h, jsGtQ]
    simp [jsToNumber]
  · have hq : q = 0 := by simpa [jsTruthy] using h
    subst hq
    rw [if_neg h, jsGtQ]
    simp [jsToNumber]

/-- A finalized transactions field absorbs a second merge with the same
pattern value, provided an unusable llm transactions value had JS length 0
(the hypothesis that fails exactly on non-empty placeholder strings). -/
theorem txField_absorb (a pv : Option JSVal)
    (htx : isValidData (a.getD vUndefined) = false →
      jsOrZero (jsOptLength (a.getD vUndefined)) = vNum 0) :
    txField (some (keepValid (txField a pv) (vArr []))) pv =
      some (keepValid (txField a pv) (vArr [])) := by
  by_cases hg : jsTruthy (pv.getD vUndefined) && isValidData (pv.getD vUndefined)
  case neg =>
    conv_lhs => rw [txField, if_neg hg]
  case pos =>
    have hg2 := hg
    rw [Bool.and_eq_true] at hg2
    rcases hpv : pv.getD vUndefined with _ | _ | _ | q | s | b | ps | fs | ⟨ys, props⟩
    case vArrP => conv_lhs => rw [txField, if_pos hg, hpv]
    case vNull => conv_lhs => rw [txField, if_pos hg, hpv]
    case vUndefined => conv_lhs => rw [txField, if_pos hg, hpv]
    case vNaN => conv_lhs => rw [txField, if_pos hg, hpv]
    case vNum => conv_lhs => rw [txField, if_pos hg, hpv]
    case vStr => conv_lhs => rw [txField, if_pos hg, hpv]
    case vBool => conv_lhs => rw [txField, if_pos hg, hpv]
    case vObj => conv_lhs => rw [txField, if_pos hg, hpv]
    case vArr =>
      have hpe : ps ≠ [] := by
        rw [hpv] at hg2
        intro hc
        rw [hc] at hg2
        cases hg2.2
      by_cases hD : jsGtQ (ps.length : ℚ)
          (jsOrZero (jsOptLength (a.getD vUndefined))) = true
      · have h1 : txField a pv = some (vArr ps) := by
          rw [txField, if_pos hg, hpv]
          dsimp only
          rw [if_pos hD]
        rw [h1, keepValid_valid (show isValidData (vArr ps) = true by
          rw [hpv] at hg2
          exact hg2.2)]
        conv_lhs => rw [txField, if_pos hg, hpv]
        dsimp only
        rw [ite_self]
      · have hD' : jsGtQ (ps.length : ℚ)
            (jsOrZero (jsOptLength (a.getD vUndefined))) = false :=
          Bool.eq_false_iff.mpr hD
        have h1 : txField a pv = a := by
          rw [txField, if_pos hg, hpv]
          dsimp only
          rw [if_neg hD]
        rw [h1]
        by_cases hva : isValidData (a.getD vUndefined)
        · rcases a with _ | av
          · cases hva
          · rw [Option.getD_some] at hva hD'
            rw [keepValid_valid hva]
            conv_lhs => rw [txField, if_pos hg, hpv]
            dsimp only
            simp only [Option.getD_some]
            rw [if_neg (by rw [hD']; exact Bool.false_ne_true)]
        · exfalso
          have hz := htx (Bool.eq_false_iff.mpr hva)
          rw [hz] at hD'
          rw [show jsGtQ (ps.length : ℚ) (vNum 0) =
            decide ((0 : ℚ) < (ps.length : ℚ)) from rfl] at hD'
          apply of_decide_eq_false hD'
          exact_mod_cast List.length_pos.mpr hpe

/-- A second fill merge skips whenever the current value is truthy and valid
under a truthy, valid pattern value. -/
theorem fillField_guard_skip {x : JSVal} (pv : Option JSVal)
    (hx : jsTruthy (pv.getD vUndefined) = true →
      isValidData (pv.getD vUndefined) = true →
      jsTruthy x = true ∧ isValidData x = true) :
    fillField (some x) pv = some x := by
  by_cases hg : jsTruthy (pv.getD vUndefined) && isValidData (pv.getD vUndefined)
  · have hg2 := hg
    rw [Bool.and_eq_true] at hg2
    obtain ⟨hxt, hxv⟩ := hx hg2.1 hg2.2
    rw [fillField, if_pos hg]
    dsimp only
    rw [if_neg (by
      rw [Option.getD_some, hxt, hxv]
      simp)]
  · rw [fillField, if_neg hg]

/-- Under a truthy, valid pattern value, a filled-then-revalidated field is
truthy and valid. -/
theorem fillField_target_tv (a pv : Option JSVal)
    (ht : jsTruthy (pv.getD vUndefined) = true)
    (hv : isValidData (pv.getD vUndefined) = true) :
    jsTruthy (keepValid (fillField a pv) vNull) = true ∧
      isValidData (keepValid (fillField a pv) vNull) = true := by
  have hg : (jsTruthy (pv.getD vUndefined) && isValidData (pv.getD vUndefined)) = true := by
    rw [ht, hv]; rfl
  by_cases hc : !jsTruthy (a.getD vUndefined) || !isValidData (a.getD vUndefined)
  · have h1 : fillField a pv = some (pv.getD vUndefined) := by
      rw [fillField, if_pos hg]
      dsimp only
      rw [if_pos hc]
    rw [h1, keepValid_valid hv]
    exact ⟨ht, hv⟩
  · have hc2 : jsTruthy (a.getD vUndefined) = true ∧
        isValidData (a.getD vUndefined) = true := by
      rcases ht' : jsTruthy (a.getD vUndefined) with _ | _ <;>
        rcases hv' : isValidData (a.getD vUndefined) with _ | _ <;>
        simp [ht', hv'] at hc ⊢
    have h1 : fillField a pv = a := by
      rw [fillField, if_pos hg]
      dsimp only
      rw [if_neg hc]
    rcases a with _ | av
    · rw [show ((none : Option JSVal).getD vUndefined) = vUndefined from rfl] at hc2
      cases hc2.1
    · rw [Option.getD_some] at hc2
      rw [h1, keepValid_valid hc2.2]
      exact hc2

/-- A finalized record absorbs a second merge with the same pattern record
(under the transactions-length and reward-container hypotheses). -/
theorem robustDataMerging_absorb (ai p m1 : JSRecord)
    (h : robustDataMerging ai p = some m1)
    (htx : isValidData (ai.transactions.getD vUndefined) = false →
      jsOrZero (jsOptLength (ai.transactions.getD vUndefined)) = vNum 0)
    (hrw : ai.reward_points_summary ≠ some (vArr []) ∧
      ∀ xs ps, ai.reward_points_summary = some (vArrP xs ps) → xs ≠ []) :
    robustDataMerging (finalValidationAndCalculation m1) p =
      some (finalValidationAndCalculation m1) := by
  obtain ⟨rps, hrps, hm⟩ := robustDataMerging_eq_some h
  have hcn : m1.customer_name = hpField ai.customer_name p.customer_name := by rw [hm]
  have hcard : m1.card_number = hpField ai.card_number p.card_number := by rw [hm]
  have hbn : m1.bank_name = hpField ai.bank_name p.bank_name := by rw [hm]
  have htrx : m1.transactions = txField ai.transactions p.transactions := by rw [hm]
  have htot : m1.total_amount_due =
    fillField ai.total_amount_due p.total_amount_due := by rw [hm]
  have hmin : m1.minimum_amount_due =
    fillField ai.minimum_amount_due p.minimum_amount_due := by rw [hm]
  have hcl : m1.credit_limit = fillField ai.credit_limit p.credit_limit := by rw [hm]
  have hav : m1.available_credit_limit =
    fillField ai.available_credit_limit p.available_credit_limit := by rw [hm]
  have hsd : m1.statement_date = fillField ai.statement_date p.statement_date := by
    rw [hm]
  have hpdd : m1.payment_due_date =
    fillField ai.payment_due_date p.payment_due_date := by rw [hm]
  have hrpsf : m1.reward_points_summary = rps := by rw [hm]
  rw [robustDataMerging,
    show (finalValidationAndCalculation m1).reward_points_summary =
      some (deriveClosing (validateRps m1.reward_points_summary)) from rfl,
    hrpsf, mergeRps_absorb hrps hrw, Option.map_some']
  congr 1
  refine JSRecord.ext ?_ ?_ ?_ ?_ ?_ ?_ ?_ ?_ ?_ ?_ ?_
  · rw [show (finalValidationAndCalculation m1).customer_name =
      some (keepValid m1.customer_name vNull) from rfl, hcn, hpField_absorb]
  · rw [show (finalValidationAndCalculation m1).statement_date =
      some (keepValid m1.statement_date vNull) from rfl, hsd, fillField_absorb]
  · rw [show (finalValidationAndCalculation m1).payment_due_date =
      some (keepValid m1.payment_due_date vNull) from rfl, hpdd, fillField_absorb]
  · rw [show (finalValidationAndCalculation m1).total_amount_due =
      some (keepValid m1.total_amount_due vNull) from rfl, htot, fillField_absorb]
  · rw [show (finalValidationAndCalculation m1).minimum_amount_due =
      some (if isValidData (keepValid m1.total_amount_due vNull) &&
          !isValidData (keepValid m1.minimum_amount_due vNull)
        then jsMinDue (keepValid m1.total_amount_due vNull)
        else keepValid m1.minimum_amount_due vNull) from rfl, hmin]
    apply fillField_guard_skip
    intro ht hv
    obtain ⟨hxt, hxv⟩ := fillField_target_tv ai.minimum_amount_due
      p.minimum_amount_due ht hv
    rw [if_neg (by rw [hxv]; simp)]
    exact ⟨hxt, hxv⟩
  · rw [show (finalValidationAndCalculation m1).credit_limit =
      some (keepValid m1.credit_limit vNull) from rfl, hcl, fillField_absorb]
  · rw [show (finalValidationAndCalculation m1).available_credit_limit =
      some (if isValidData (keepValid m1.credit_limit vNull) &&
          isValidData (keepValid m1.total_amount_due vNull) &&
          !isValidData (keepValid m1.available_credit_limit vNull)
        then jsSub (keepValid m1.credit_limit vNull)
          (keepValid m1.total_amount_due vNull)
        else keepValid m1.available_credit_limit vNull) from rfl, hav]
    apply fillField_guard_skip
    intro ht hv
    obtain ⟨hxt, hxv⟩ := fillField_target_tv ai.available_credit_limit
      p.available_credit_limit ht hv
    rw [if_neg (by rw [hxv]; simp)]
    exact ⟨hxt, hxv⟩
  · rw [show (finalValidationAndCalculation m1).card_number =
      some (keepValid m1.card_number vNull) from rfl, hcard, hpField_absorb]
  · rw [show (finalValidationAndCalculation m1).transactions =
      some (keepValid m1.transactions (vArr [])) from rfl, htrx, txField_absorb]
    exact htx
  · rw [show (finalValidationAndCalculation m1).reward_points_summary =
      some (deriveClosing (validateRps m1.reward_points_summary)) from rfl, hrpsf]
  · rw [show (finalValidationAndCalculation m1).bank_name =
      some (keepValid m1.bank_name vNull) from rfl, hbn, hpField_absorb]

/-- C4 counterexample, two failure modes.  First: with llm `transactions`
the placeholder string "na" (unusable, but of JS length 2) and a one-row
pattern list, the first pass keeps "na" (1 > 2 fails) and finalization drops
it to `[]`; the second pass then sees length 0, adopts the pattern row, and
produces a different record.  Second: with llm `reward_points_summary` the
empty array `[]` (truthy) and a pattern reward object carrying a usable
opening balance, the first pass writes the sub-value as a named property
onto the length-0 array, which finalization drops (`Array.isArray &&
length === 0`) to the three-null fallback; the second pass re-fills the
sub-key on that object, and the finalized records differ. -/
theorem merge_finalize_not_idempotent :
    (∃ m1 m2,
      robustDataMerging { noKeys with transactions := some (vStr "na") }
        { noKeys with transactions := some (vArr [vNum 1]) } = some m1 ∧
      robustDataMerging (finalValidationAndCalculation m1)
        { noKeys with transactions := some (vArr [vNum 1]) } = some m2 ∧
      (finalValidationAndCalculation m1).transactions = some (vArr []) ∧
      (finalValidationAndCalculation m2).transactions = some (vArr [vNum 1]) ∧
      finalValidationAndCalculation m2 ≠ finalValidationAndCalculation m1) ∧
    (∃ n1 n2,
      robustDataMerging { noKeys with reward_points_summary := some (vArr []) }
        { noKeys with reward_points_summary := some (vObj [(obKey, vNum 5)]) } =
        some n1 ∧
      robustDataMerging (finalValidationAndCalculation n1)
        { noKeys with reward_points_summary := some (vObj [(obKey, vNum 5)]) } =
        some n2 ∧
      n1.reward_points_summary = some (vArrP [] [(obKey, vNum 5)]) ∧
      (finalValidationAndCalculation n1).reward_points_summary =
        some (vObj [(obKey, vNull), (eKey, vNull), (cbKey, vNull)]) ∧
      (finalValidationAndCalculation n2).reward_points_summary =
        some (vObj [(obKey, vNum 5), (eKey, vNull), (cbKey, vNull)]) ∧
      finalValidationAndCalculation n2 ≠ finalValidationAndCalculation n1) := by
  constructor
  · refine ⟨_, _, rfl, rfl, rfl, rfl, ?_⟩
    intro hEq
    have h2 : (some (vArr [vNum 1]) : Option JSVal) = some (vArr []) :=
      congrArg JSRecord.transactions hEq
    have h3 := JSVal.vArr.inj (Option.some.inj h2)
    simp at h3
  · refine ⟨_, _, rfl, rfl, rfl, rfl, rfl, ?_⟩
    intro hEq
    have h2 : (some (vObj [(obKey, vNum 5), (eKey, vNull), (cbKey, vNull)]) :
        Option JSVal) =
        some (vObj [(obKey, vNull), (eKey, vNull), (cbKey, vNull)]) :=
      congrArg JSRecord.reward_points_summary hEq
    have h3 := JSVal.vObj.inj (Option.some.inj h2)
    simp at h3

/-- C4 (amended): for every llm/pattern pair where (a) the merge does not
throw, (b) the llm `transactions` value, when unusable, has JS length 0
(i.e. it is not one of the non-empty placeholder strings such as "na" or
"null"), and (c) the llm `reward_points_summary` is not backed by an empty
element list (an empty array stays length 0 when a reward sub-value is
written onto it as a named property, so finalization drops it and a second
pass re-fills the sub-key), running merge-then-finalize a second time on
its own output with the same pattern record returns the identical record. -/
theorem merge_finalize_idempotent (ai p m1 : JSRecord)
    (h : robustDataMerging ai p = some m1)
    (htx : isValidData (ai.transactions.getD vUndefined) = false →
      jsOrZero (jsOptLength (ai.transactions.getD vUndefined)) = vNum 0)
    (hrw : ai.reward_points_summary ≠ some (vArr []) ∧
      ∀ xs ps, ai.reward_points_summary = some (vArrP xs ps) → xs ≠ []) :
    ∃ m2, robustDataMerging (finalValidationAndCalculation m1) p = some m2 ∧
      finalValidationAndCalculation m2 = finalValidationAndCalculation m1 :=
  ⟨finalValidationAndCalculation m1, robustDataMerging_absorb ai p m1 h htx hrw,
    finalize_idem m1⟩

/-- An llm record with a usable total and a one-row transactions list. -/
def recIdemA : JSRecord :=
  { noKeys with
    total_amount_due := some (vNum 10)
    transactions := some (vArr [vNum 2]) }

/-- A pattern record with a different usable total. -/
def recIdemP : JSRecord := { noKeys with total_amount_due := some (vNum 7) }

/-- Witness for `merge_finalize_idempotent` at a concrete pair: an llm
record with a usable total and list transactions against a pattern record
with a different total. -/
theorem merge_finalize_idempotent_witness :
    ∃ m2, robustDataMerging (finalValidationAndCalculation recIdemA) recIdemP =
        some m2 ∧
      finalValidationAndCalculation m2 =
        finalValidationAndCalculation recIdemA :=
  merge_finalize_idempotent recIdemA recIdemP recIdemA rfl (fun hc => by cases hc)
    ⟨fun hc => Option.noConfusion hc, fun xs ps hc => Option.noConfusion hc⟩

/-! ## C6: LLM-failure recovery (`extractJsonFromResponse` and the pipeline)

String machinery for the JSON recovery step.  Characters with syntactic
meaning in Lean are written via `Char.ofNat`: 34 is the double quote, 39 the
apostrophe, 92 the backslash, 96 the backtick, 123/125 the braces. -/

/-- The double-quote character. -/
def qtCh : Char := Char.ofNat 34

/-- The backslash character. -/
def bsCh : Char := Char.ofNat 92

/-- The opening-brace character. -/
def lbrCh : Char := Char.ofNat 123

/-- The closing-brace character. -/
def rbrCh : Char := Char.ofNat 125

/-- The backtick character. -/
def btCh : Char := Char.ofNat 96

/-- The apostrophe character. -/
def apCh : Char := Char.ofNat 39

/-- JSON whitespace (space, tab, line feed, carriage return). -/
def isJsonWs (c : Char) : Bool :=
  c = ' ' || c.toNat = 9 || c.toNat = 10 || c.toNat = 13

/-- Hex digit value. -/
def hexVal (c : Char) : Option Nat :=
  if 48 ≤ c.toNat && c.toNat ≤ 57 then some (c.toNat - 48)
  else if 97 ≤ c.toNat && c.toNat ≤ 102 then some (c.toNat - 87)
  else if 65 ≤ c.toNat && c.toNat ≤ 70 then some (c.toNat - 55)
  else none

/-- Parse a JSON string body (after the opening quote), handling the
standard escapes.  JSON.parse's rejection of raw control characters is not
modelled (no input of this pipeline depends on it). -/
def jparseStr : Nat → List Char → List Char → Option (String × List Char)
  | 0, _, _ => none
  | _ + 1, _, [] => none
  | fuel + 1, acc, c :: rest =>
    if c = qtCh then some (String.mk acc.reverse, rest)
    else if c = bsCh then
      match rest with
      | [] => none
      | e :: rest2 =>
        if e = 'n' then jparseStr fuel (Char.ofNat 10 :: acc) rest2
        else if e = 't' then jparseStr fuel (Char.ofNat 9 :: acc) rest2
        else if e = 'r' then jparseStr fuel (Char.ofNat 13 :: acc) rest2
        else if e = 'b' then jparseStr fuel (Char.ofNat 8 :: acc) rest2
        else if e = 'f' then jparseStr fuel (Char.ofNat 12 :: acc) rest2
        else if e = '/' then jparseStr fuel ('/' :: acc) rest2
        else if e = qtCh then jparseStr fuel (qtCh :: acc) rest2
        else if e = bsCh then jparseStr fuel (bsCh :: acc) rest2
        else if e = 'u' then
          match rest2 with
          | h1 :: h2 :: h3 :: h4 :: rest3 =>
            match hexVal h1, hexVal h2, hexVal h3, hexVal h4 with
            | some a, some b2, some c2, some d =>
                jparseStr fuel
                  (Char.ofNat (((a * 16 + b2) * 16 + c2) * 16 + d) :: acc) rest3
            | _, _, _, _ => none
          | _ => none
        else none
    else jparseStr fuel (c :: acc) rest

/-- Parse a strict JSON number (no leading zeros, optional fraction and
exponent) as an exact rational. -/
def jparseNum (cs : List Char) : Option (JSVal × List Char) :=
  let (sgn, cs1) : ℚ × List Char :=
    match cs with
    | '-' :: rest => (-1, rest)
    | _ => (1, cs)
  let intRes : Option (List Char × List Char) :=
    match cs1 with
    | '0' :: rest => some (['0'], rest)
    | c :: rest =>
        if isDigitCh c && c ≠ '0' then
          some (c :: rest.takeWhile isDigitCh, rest.dropWhile isDigitCh)
        else none
    | [] => none
  match intRes with
  | none => none
  | some (intDs, cs2) =>
    let (fracDs, cs3) : List Char × List Char :=
      match cs2 with
      | '.' :: rest =>
          (rest.takeWhile isDigitCh, rest.dropWhile isDigitCh)
      | _ => ([], cs2)
    if cs2 ≠ cs3 && fracDs.isEmpty then none
    else
      let mant : ℚ := sgn * ((digitsVal intDs 0 : ℚ) +
        (digitsVal fracDs 0 : ℚ) / ((10 : ℚ) ^ fracDs.length))
      match cs3 with
      | e :: rest =>
        if e = 'e' || e = 'E' then
          let (esgn, rest2) : Bool × List Char :=
            match rest with
            | '-' :: r => (true, r)
            | '+' :: r => (false, r)
            | _ => (false, rest)
          let eds := rest2.takeWhile isDigitCh
          if eds.isEmpty then none
          else
            let ex := digitsVal eds 0
            some (vNum (mant * (if esgn then ((10 : ℚ) ^ ex)⁻¹ else (10 : ℚ) ^ ex)),
              rest2.dropWhile isDigitCh)
        else some (vNum mant, cs3)
      | [] => some (vNum mant, cs3)

/-- Does `pre` prefix `cs` (case-sensitively)? Returns the rest. -/
def stripPrefixCh : List Char → List Char → Option (List Char)
  | [], cs => some cs
  | _, [] => none
  | p :: ps, c :: cs => if p = c then stripPrefixCh ps cs else none

mutual
/-- Parse one JSON value. -/
def jparseVal : Nat → List Char → Option (JSVal × List Char)
  | 0, _ => none
  | fuel + 1, cs =>
    match cs.dropWhile isJsonWs with
    | [] => none
    | c :: rest =>
      if c = lbrCh then
        match (rest.dropWhile isJsonWs) with
        | d :: rest2 =>
          if d = rbrCh then some (vObj [], rest2)
          else jparseObjItems fuel [] (d :: rest2)
        | [] => none
      else if c = '[' then
        match (rest.dropWhile isJsonWs) with
        | d :: rest2 =>
          if d = ']' then some (vArr [], rest2)
          else jparseArrItems fuel [] (d :: rest2)
        | [] => none
      else if c = qtCh then
        (jparseStr fuel [] rest).map fun p => (vStr p.1, p.2)
      else if c = 't' then
        (stripPrefixCh ['r', 'u', 'e'] rest).map fun r => (vBool true, r)
      else if c = 'f' then
        (stripPrefixCh ['a', 'l', 's', 'e'] rest).map fun r => (vBool false, r)
      else if c = 'n' then
        (stripPrefixCh ['u', 'l', 'l'] rest).map fun r => (vNull, r)
      else jparseNum (c :: rest)

/-- Parse the items of a non-empty JSON array (first item pending). -/
def jparseArrItems : Nat → List JSVal → List Char → Option (JSVal × List Char)
  | 0, _, _ => none
  | fuel + 1, acc, cs =>
    match jparseVal fuel cs with
    | none => none
    | some (v, rest) =>
      match rest.dropWhile isJsonWs with
      | ',' :: rest2 => jparseArrItems fuel (v :: acc) rest2
      | d :: rest2 =>
          if d = ']' then some (vArr (v :: acc).reverse, rest2) else none
      | [] => none

/-- Parse the members of a non-empty JSON object (first member pending).
A duplicated key keeps its first position with the last value, as in JS. -/
def jparseObjItems : Nat → List (String × JSVal) → List Char →
    Option (JSVal × List Char)
  | 0, _, _ => none
  | fuel + 1, acc, cs =>
    match cs.dropWhile isJsonWs with
    | k :: rest =>
      if k = qtCh then
        match jparseStr fuel [] rest with
        | none => none
        | some (key, rest2) =>
          match rest2.dropWhile isJsonWs with
          | ':' :: rest3 =>
            match jparseVal fuel rest3 with
            | none => none
            | some (v, rest4) =>
              match rest4.dropWhile isJsonWs with
              | ',' :: rest5 => jparseObjItems fuel (updFields acc key v) rest5
              | d :: rest5 =>
                  if d = rbrCh then some (vObj (updFields acc key v), rest5)
                  else none
              | [] => none
          | _ => none
      else none
    | [] => none
end

/-- `JSON.parse`: one JSON value covering the whole input. -/
def jsonParse (s : String) : Option JSVal :=
  match jparseVal (s.data.length + 1) s.data with
  | some (v, rest) => if (rest.dropWhile isJsonWs).isEmpty then some v else none
  | none => none

/-- Does the text at this position close the fenced block: optional
whitespace then three backticks? -/
def closesFence (cs : List Char) : Bool :=
  match cs.dropWhile isWs with
  | a :: b :: c :: _ => a = btCh && b = btCh && c = btCh
  | _ => false

/-- The lazy capture `(\x7b[\s\S]*?\x7d)\s*` before the closing fence:
grow the capture to the first closing brace whose tail closes the fence. -/
def lazyFenceCapture : Nat → List Char → List Char → Option (List Char)
  | 0, _, _ => none
  | _ + 1, _, [] => none
  | fuel + 1, acc, c :: rest =>
    if c = rbrCh && closesFence rest then some ((c :: acc).reverse)
    else lazyFenceCapture fuel (c :: acc) rest

/-- One attempt of the code-block pattern just after the three backticks:
`(?:json)?\s*` then the lazy brace capture. -/
def tryFenceAt (cs : List Char) : Option (List Char) :=
  let cs1 := match stripPrefixCh ['j', 's', 'o', 'n'] cs with
    | some r => r
    | none => cs
  match cs1.dropWhile isWs with
  | c :: rest =>
    if c = lbrCh then lazyFenceCapture (rest.length + 1) [c] rest else none
  | [] => none

/-- Leftmost match of the fenced-code-block pattern
(three backticks, optional literal "json", whitespace, the lazy brace
capture, whitespace, three backticks). -/
def findCodeBlockCh : Nat → List Char → Option (List Char)
  | 0, _ => none
  | _ + 1, [] => none
  | fuel + 1, c :: rest =>
    match stripPrefixCh [btCh, btCh, btCh] (c :: rest) with
    | some after =>
      match tryFenceAt after with
      | some cap => some cap
      | none => findCodeBlockCh fuel rest
    | none => findCodeBlockCh fuel rest

/-- The first fenced code block of the response. -/
def findCodeBlock (s : String) : Option String :=
  (findCodeBlockCh (s.data.length + 1) s.data).map String.mk

/-- The greedy brace match `\x7b[\s\S]*\x7d`: from the first opening brace
to the last closing brace after it. -/
def findBraces (s : String) : Option String :=
  let cs := s.data
  let tail := cs.dropWhile (fun c => c ≠ lbrCh)
  match tail with
  | [] => none
  | _ :: _ =>
    let afterRev := tail.reverse.dropWhile (fun c => c ≠ rbrCh)
    match afterRev with
    | [] => none
    | _ :: _ => some (String.mk afterRev.reverse)

/-- `replace(/,\s*C/g, C)` for a closing character `C`: drop a comma that
precedes (whitespace then) the closer. -/
def fixCommaClose (close : Char) : Nat → List Char → List Char
  | 0, cs => cs
  | _ + 1, [] => []
  | fuel + 1, c :: rest =>
    if c = ',' then
      match rest.dropWhile isWs with
      | d :: rest2 =>
        if d = close then d :: fixCommaClose close fuel rest2
        else c :: fixCommaClose close fuel rest
      | [] => c :: fixCommaClose close fuel rest
    else c :: fixCommaClose close fuel rest

/-- A JS word character `\w`. -/
def isWordCh (c : Char) : Bool :=
  isDigitCh c || (97 ≤ c.toNat && c.toNat ≤ 122) ||
  (65 ≤ c.toNat && c.toNat ≤ 90) || c = '_'

/-- `replace(/(\w+):/g, ...)`: wrap every word run directly followed by a
colon in double quotes. -/
def quoteKeys : Nat → List Char → List Char
  | 0, cs => cs
  | _ + 1, [] => []
  | fuel + 1, c :: rest =>
    if isWordCh c then
      let run := c :: rest.takeWhile isWordCh
      let rest2 := rest.dropWhile isWordCh
      match rest2 with
      | ':' :: rest3 => (qtCh :: run) ++ (qtCh :: ':' :: quoteKeys fuel rest3)
      | _ => run ++ quoteKeys fuel rest2
    else c :: quoteKeys fuel rest

/-- The tolerant-repair cleanup of the second recovery attempt: drop commas
before closers, quote bare keys, turn single quotes into double quotes,
strip to the first opening brace. -/
def cleanupJson (s : String) : String :=
  let cs := s.data
  let cs := fixCommaClose rbrCh (cs.length + 1) cs
  let cs := fixCommaClose ']' (cs.length + 1) cs
  let cs := quoteKeys (cs.length + 1) cs
  let cs := cs.map fun c => if c = apCh then qtCh else c
  String.mk (cs.dropWhile (fun c => c ≠ lbrCh))

/-- Project a parsed JSON object onto the canonical record keys.  The
non-object case is unreachable (both recovery paths parse a brace-delimited
text); non-canonical keys are dropped, as finalization would drop them. -/
def toRecord : JSVal → JSRecord
  | vObj fs =>
    { customer_name := lookupField fs "customer_name"
      statement_date := lookupField fs "statement_date"
      payment_due_date := lookupField fs "payment_due_date"
      total_amount_due := lookupField fs "total_amount_due"
      minimum_amount_due := lookupField fs "minimum_amount_due"
      credit_limit := lookupField fs "credit_limit"
      available_credit_limit := lookupField fs "available_credit_limit"
      card_number := lookupField fs "card_number"
      transactions := lookupField fs "transactions"
      reward_points_summary := lookupField fs "reward_points_summary"
      bank_name := lookupField fs "bank_name" }
  | _ => noKeys

/-- Embeds `extractJsonFromResponse`: first a fenced code block parsed
strictly (a parse failure falls to the catch, not to the second attempt),
then the brace-delimited substring after tolerant repair; if everything
fails, the canonical fully-null fallback record. -/
def extractJsonFromResponse (response : String) : JSRecord :=
  match findCodeBlock response with
  | some s =>
    match jsonParse s with
    | some v => toRecord v
    | none => createCompleteFallbackData
  | none =>
    match findBraces response with
    | some s =>
      match jsonParse (cleanupJson s) with
      | some v => toRecord v
      | none => createCompleteFallbackData
    | none => createCompleteFallbackData

/-- Embeds `extract10DataPointsWithGemini` after pattern extraction: the
LLM outcome is either a thrown error (a missing key throws before the call;
transport failures return an error string, not an exception) or the
response text.  The try-block runs JSON recovery, merge and finalization; a
thrown error — including the merge's possible TypeError — lands in the
catch, which copies valid pattern fields onto a fallback record and
finalizes that. -/
def extract10DataPointsWithGemini (llmOutcome : Except Unit String)
    (patternData : JSRecord) : JSRecord :=
  match llmOutcome with
  | .error _ => finalValidationAndCalculation (catchCopy patternData)
  | .ok response =>
    match robustDataMerging (extractJsonFromResponse response) patternData with
    | some merged => finalValidationAndCalculation merged
    | none => finalValidationAndCalculation (catchCopy patternData)

/-- A reward sub-merge step on an object container always succeeds and
stays an object. -/
theorem mergeRpsSub_obj_some (fs : List (String × JSVal)) (pv : JSVal)
    (k : String) :
    ∃ fs', mergeRpsSub (some (vObj fs)) pv k = some (some (vObj fs')) := by
  rw [mergeRpsSub]
  by_cases hg : jsTruthy (jsGetProp pv k) && isValidData (jsGetProp pv k)
  · rw [if_pos hg]
    by_cases hi : !jsTruthy ((some (vObj fs) : Option JSVal).getD vUndefined) ||
        !jsTruthy (jsGetProp ((some (vObj fs) : Option JSVal).getD vUndefined) k) ||
        !isValidData (jsGetProp ((some (vObj fs) : Option JSVal).getD vUndefined) k)
    · rw [if_pos hi]
      dsimp only
      rw [Option.getD_some, if_pos (show jsTruthy (vObj fs) = true from rfl)]
      exact ⟨updFields fs k (jsGetProp pv k), rfl⟩
    · rw [if_neg hi]
      exact ⟨fs, rfl⟩
  · rw [if_neg hg]
    exact ⟨fs, rfl⟩

/-- Merging the fallback record with any pattern record never throws: its
`reward_points_summary` is an object. -/
theorem merge_fallback_some (p : JSRecord) :
    ∃ m, robustDataMerging createCompleteFallbackData p = some m := by
  rw [robustDataMerging]
  have hrps : ∃ r, mergeRps createCompleteFallbackData.reward_points_summary
      p.reward_points_summary = some r := by
    rw [show createCompleteFallbackData.reward_points_summary =
      some fallbackRps from rfl, mergeRps]
    by_cases hp : jsTruthy ((p.reward_points_summary).getD vUndefined)
    · rw [if_pos hp]
      obtain ⟨f1, h1⟩ := mergeRpsSub_obj_some [(obKey, vNull), (eKey, vNull),
        (cbKey, vNull)] ((p.reward_points_summary).getD vUndefined) obKey
      rw [show mergeRpsSub (some fallbackRps) ((p.reward_points_summary).getD
        vUndefined) obKey = some (some (vObj f1)) from h1]
      simp only [Option.bind_eq_bind, Option.some_bind]
      obtain ⟨f2, h2⟩ := mergeRpsSub_obj_some f1
        ((p.reward_points_summary).getD vUndefined) eKey
      rw [h2, Option.some_bind]
      obtain ⟨f3, h3⟩ := mergeRpsSub_obj_some f2
        ((p.reward_points_summary).getD vUndefined) cbKey
      rw [h3]
      exact ⟨some (vObj f3), rfl⟩
    · rw [if_neg hp]
      exact ⟨some fallbackRps, rfl⟩
  obtain ⟨r, hr⟩ := hrps
  rw [hr]
  exact ⟨_, rfl⟩

/-- C6: an extraction-source failure never aborts the pipeline.  If the LLM
response text yields no recoverable JSON, `extractJsonFromResponse` returns
the canonical fully-null fallback record, the pattern data is merged into it
(this merge cannot throw) and finalization runs; if the LLM call itself
throws, the catch branch copies the valid pattern fields onto a fallback
record and finalizes it.  In both cases the pipeline returns a finalized
record — the failure is never surfaced as an error. -/
theorem extraction_pipeline_recovers (p : JSRecord) (response : String)
    (hunrec : extractJsonFromResponse response = createCompleteFallbackData) :
    (∃ m, robustDataMerging createCompleteFallbackData p = some m ∧
      extract10DataPointsWithGemini (Except.ok response) p =
        finalValidationAndCalculation m) ∧
    extract10DataPointsWithGemini (Except.error ()) p =
      finalValidationAndCalculation (catchCopy p) := by
  obtain ⟨m, hm⟩ := merge_fallback_some p
  refine ⟨⟨m, hm, ?_⟩, rfl⟩
  rw [extract10DataPointsWithGemini, hunrec, hm]

/-- Witness for `extraction_pipeline_recovers`: a prose-only response (no
code fence, no braces) against the empty pattern record. -/
theorem extraction_pipeline_recovers_witness :
    extractJsonFromResponse "Sorry, no data found." =
      createCompleteFallbackData ∧
    ((∃ m, robustDataMerging createCompleteFallbackData noKeys = some m ∧
      extract10DataPointsWithGemini (Except.ok "Sorry, no data found.") noKeys =
        finalValidationAndCalculation m) ∧
    extract10DataPointsWithGemini (Except.error ()) noKeys =
      finalValidationAndCalculation (catchCopy noKeys)) :=
  ⟨rfl, extraction_pipeline_recovers noKeys "Sorry, no data found." rfl⟩

/-! ## C9: customer-name extraction and the "email" exclusion

A faithful evaluator for the four name regexes of
`extractCustomerInfoFromText`, specialised to their common shape
`PRE ([A-Za-z\s\.]+(?!\s*email)) POST` with regex backtracking order
(greedy whitespace and capture runs, alternatives in source order,
leftmost match).  The character classes are the ASCII fragments the
statement texts use. -/

/-- The newline character. -/
def nlCh : Char := Char.ofNat 10

/-- An ASCII letter. -/
def isAsciiLetter (c : Char) : Bool :=
  (65 ≤ c.toNat && c.toNat ≤ 90) || (97 ≤ c.toNat && c.toNat ≤ 122)

/-- The capture class `[A-Za-z\s\.]`. -/
def nameClassCh (c : Char) : Bool := isAsciiLetter c || isWs c || c = '.'

/-- Case-insensitive literal match, returning the rest. -/
def matchCI : List Char → List Char → Option (List Char)
  | [], cs => some cs
  | _, [] => none
  | p :: ps, c :: cs => if lowerCh p = lowerCh c then matchCI ps cs else none

/-- The lookahead body `\s*email` (case-insensitive) matches here. -/
def emailAhead (cs : List Char) : Bool :=
  (matchCI ['e', 'm', 'a', 'i', 'l'] (cs.dropWhile isWs)).isSome

/-- `(?:\n|$)` with no multiline flag: a newline or the end of input. -/
def postNlOrEnd : List Char → Bool
  | [] => true
  | c :: _ => c = nlCh

/-- Greedy capture attempt at one position for patterns 1-3: the longest
name-class run first, shrunk until the lookahead rejects "email" and a
newline or the end follows. -/
def capLoop (cs : List Char) : Nat → Option (List Char)
  | 0 => none
  | len + 1 =>
    let rest := cs.drop (len + 1)
    if !emailAhead rest && postNlOrEnd rest then some (cs.take (len + 1))
    else capLoop cs len

/-- Capture at one position (patterns 1-3). -/
def tryCapture (cs : List Char) : Option (List Char) :=
  capLoop cs (cs.takeWhile nameClassCh).length

/-- Greedy `\s*` before the capture: consume the most whitespace first. -/
def wsAttempts (cs : List Char) : Nat → Option (List Char)
  | 0 => tryCapture cs
  | k + 1 => tryCapture (cs.drop (k + 1)) <|> wsAttempts cs k

/-- `[:]?\s*` then the capture: the colon branch first (the optional group
is greedy), each with its greedy whitespace run. -/
def colonStep (cs1 : List Char) : Option (List Char) :=
  (match cs1 with
   | ':' :: rest2 => wsAttempts rest2 (rest2.takeWhile isWs).length
   | _ => none) <|>
  wsAttempts cs1 (cs1.takeWhile isWs).length

/-- The first `\s*` after the label, greedy. -/
def w1Loop (rest : List Char) : Nat → Option (List Char)
  | 0 => colonStep rest
  | k + 1 => colonStep (rest.drop (k + 1)) <|> w1Loop rest k

/-- Everything after the label: `\s*[:]?\s*` then the guarded capture. -/
def afterLabel (rest : List Char) : Option (List Char) :=
  w1Loop rest (rest.takeWhile isWs).length

/-- Leftmost match of one labelled name pattern. -/
def execLabelPattern (label : List Char) : Nat → List Char → Option (List Char)
  | 0, _ => none
  | fuel + 1, cs =>
    (match matchCI label cs with
     | some rest => afterLabel rest
     | none => none) <|>
    (match cs with
     | [] => none
     | _ :: rest => execLabelPattern label fuel rest)

/-- The lazy `.*?Credit Card` of pattern 4: the closest occurrence of
"Credit Card" on the same line. -/
def lazyCreditCard : Nat → List Char → Bool
  | 0, _ => false
  | fuel + 1, cs =>
    (matchCI ['C', 'r', 'e', 'd', 'i', 't', ' ', 'C', 'a', 'r', 'd'] cs).isSome ||
    (match cs with
     | [] => false
     | c :: rest => c ≠ nlCh && lazyCreditCard fuel rest)

/-- Greedy capture attempt for pattern 4: the run is followed by a newline
and then "Credit Card" later on that next stretch. -/
def cap4Loop (cs : List Char) : Nat → Option (List Char)
  | 0 => none
  | len + 1 =>
    let rest := cs.drop (len + 1)
    if !emailAhead rest then
      match rest with
      | c :: rest2 =>
        if c = nlCh && lazyCreditCard (rest2.length + 1) rest2 then
          some (cs.take (len + 1))
        else cap4Loop cs len
      | [] => cap4Loop cs len
    else cap4Loop cs len

/-- Pattern 4 anchored at line starts (`/im`), leftmost line first. -/
def execAnchored : Nat → List Char → Option (List Char)
  | 0, _ => none
  | fuel + 1, cs =>
    (cap4Loop cs (cs.takeWhile nameClassCh).length) <|>
    (match cs.dropWhile (fun c => c ≠ nlCh) with
     | [] => none
     | _ :: rest => execAnchored fuel rest)

/-- JS `String.prototype.trim` on a char list. -/
def trimCh (cs : List Char) : List Char :=
  ((cs.dropWhile isWs).reverse.dropWhile isWs).reverse

/-- Does `\s*email\s*$` match exactly from here to the end? -/
def emailTail (cs : List Char) : Bool :=
  match matchCI ['e', 'm', 'a', 'i', 'l'] (cs.dropWhile isWs) with
  | some rest => (rest.dropWhile isWs).isEmpty
  | none => false

/-- `replace(/\s*email\s*$/i, '')`: remove from the leftmost position where
the tail pattern matches through the end. -/
def stripEmailLoop : List Char → List Char → List Char
  | acc, cs =>
    if emailTail cs then acc.reverse
    else
      match cs with
      | [] => acc.reverse
      | c :: rest => stripEmailLoop (c :: acc) rest

/-- The name half of `extractCustomerInfoFromText`: the four patterns in
source order, first match with a truthy (non-empty) capture wins; the
captured name is trimmed, a trailing "email" stripped, and trimmed again.
(The bank-name half of the source function is independent and not covered
by any claim.) -/
def extractCustomerNameFromText (text : String) : Option String :=
  let cs := text.data
  let m : Option (List Char) :=
    (execLabelPattern "Customer Name".data (cs.length + 1) cs).filter
      (fun c => !c.isEmpty) <|>
    (execLabelPattern "Cardholder".data (cs.length + 1) cs).filter
      (fun c => !c.isEmpty) <|>
    (execLabelPattern "Name".data (cs.length + 1) cs).filter
      (fun c => !c.isEmpty) <|>
    (execAnchored (cs.length + 1) cs).filter (fun c => !c.isEmpty)
  m.map fun cap => String.mk (trimCh (stripEmailLoop [] (trimCh cap)))

/-- Substring test (for stating that a name still contains "email"). -/
def strContains : List Char → List Char → Bool
  | [], ps => (stripPrefixCh ps ([] : List Char)).isSome
  | c :: rest, ps => (stripPrefixCh ps (c :: rest)).isSome || strContains rest ps

/-- C9 counterexample: a name line whose "email" is interior — the capture
passes the (ineffective) lookahead and the cleanup only strips a trailing
"email", so the returned customer_name still contains the word "email". -/
theorem customer_name_keeps_interior_email :
    extractCustomerNameFromText "Name: John email Doe\n" =
      some "John email Doe" ∧
    strContains "John email Doe".data "email".data = true :=
  ⟨rfl, rfl⟩

/-- C9 (amended): the name cleanup removes one trailing `\s*email\s*` from
the matched name — a captured "John Doe email" is returned as "John Doe" —
but only a trailing occurrence: an interior "email" (such as in
"John email Doe") survives, so the returned customer_name can still contain
the word "email". -/
theorem customer_name_email_stripping :
    extractCustomerNameFromText "Name: John Doe email\n" = some "John Doe" ∧
    strContains "John Doe".data "email".data = false ∧
    extractCustomerNameFromText "Name: John email Doe\n" =
      some "John email Doe" :=
  ⟨rfl, rfl, rfl⟩
